import Mathlib

/-!
# Object-storage listing of the `cli` repository

A shallow embedding of `src/cmd/storage_list.go` (`listObjects`, the argument
split of the `list` command), of `src/cmd/storage.go` (`forEachObject`,
`copyObject`) and of `src/cmd/dbaas_migration_stop.go` (`cmdRun`), followed by
theorems about them.

Conventions of the embedding.

* A Go `string` is a Lean `String`; a `*string` is an `Option String`
  (`none` is the nil pointer), with `aws.String` and `aws.ToString` converting.
* A Go `error` is a value of `Error`; a nil error is `none : Option Error`.
* The S3 service is a transition function on an environment `σ`; the callback
  handed to `forEachObject` is a transition function on the same environment,
  so it may change what later List calls return.
* The Go `for { ... }` loops have no bound, so the loops take a fuel argument:
  one unit per iteration.  A result `none` means the loop has not been left when
  the fuel ran out.
* The requests sent, the lines printed and the objects handed to the callback
  are recorded in lists, in order.
-/

namespace Cli

/-! ## Strings -/

/-- Go `strings.HasPrefix`. -/
def HasPrefix (s pre : String) : Bool := pre.data.isPrefixOf s.data

/-- Go `strings.HasSuffix`. -/
def HasSuffix (s suffix : String) : Bool := suffix.data.isSuffixOf s.data

/-- Go `strings.TrimPrefix`: `s` without the leading `pre`, or `s` itself when
it does not start with `pre`. -/
def TrimPrefix (s pre : String) : String :=
  if HasPrefix s pre then ⟨s.data.drop pre.data.length⟩ else s

/-- The characters of `s` cut at occurrences of `sep`, into at most `n` pieces:
the loop of Go `strings.genSplit` for a one-character separator. -/
def splitChars (sep : Char) : Nat → List Char → List (List Char)
  | 0, _ => []
  | 1, s => [s]
  | n + 2, s =>
    match s.span (fun ch => ch != sep) with
    | (a, []) => [a]
    | (a, _ :: rest) => a :: splitChars sep (n + 1) rest

/-- Go `strings.SplitN(s, sep, n)` for a one-character separator and `n ≥ 0`
(the source only calls it with `"/"` and `2`). -/
def SplitN (s : String) (sep : Char) (n : Nat) : List String :=
  (splitChars sep n s.data).map String.mk

/-- Go `path.Base`: the last element of a slash-separated path. -/
def Base (path : String) : String :=
  if path = "" then "."
  else
    -- strip trailing slashes
    let p := (path.data.reverse.dropWhile (fun ch => ch == '/')).reverse
    -- keep what follows the last slash
    let q := (p.reverse.takeWhile (fun ch => ch != '/')).reverse
    -- if empty now, it had only slashes
    if q = [] then "/" else ⟨q⟩

/-- Go `aws.String`: a pointer to the given string. -/
def awsString (s : String) : Option String := some s

/-- Go `aws.ToString`: the pointed-to string, or `""` for a nil pointer. -/
def ToString : Option String → String
  | some s => s
  | none => ""

/-! ## Data model -/

/-- A Go `error` value.  `raw` is an error produced outside this code (by the
S3 client or by a callback); `wrap` is `fmt.Errorf("<msg>: %w", cause)`. -/
inductive Error where
  | raw (msg : String)
  | wrap (msg : String) (cause : Error)
  deriving DecidableEq, Repr

deriving instance DecidableEq for Except

/-- A `time.Time`, kept as the text that its `Format` method renders with the
layout `storageTimestampFormat`; the rendering itself is library code. -/
structure Time where
  formatted : String
  deriving DecidableEq, Repr

/-- The constant `storageTimestampFormat`. -/
def storageTimestampFormat : String := "2006-01-02 15:04:05 MST"

/-- The method `time.Time.Format`. -/
def Time.Format (t : Time) (_layout : String) : String := t.formatted

/-- An `s3types.Object`, with the fields this code reads.  `LastModified` is a
pointer in the SDK; the service sets it on every listed object, and `listObjects`
dereferences it unguarded, so it is taken as present. -/
structure Object where
  Key : Option String
  Size : Int
  LastModified : Time
  deriving DecidableEq, Repr

/-- An `s3types.CommonPrefix`. -/
structure CommonPrefix where
  Prefix : Option String
  deriving DecidableEq, Repr

/-- An `s3.ListObjectsV2Input`, with the fields this code sets. -/
structure ListObjectsV2Input where
  Bucket : Option String
  Prefix : Option String
  ContinuationToken : Option String
  Delimiter : Option String := none
  deriving DecidableEq, Repr

/-- An `s3.ListObjectsV2Output`, with the fields this code reads. -/
structure ListObjectsV2Output where
  CommonPrefixes : List CommonPrefix
  Contents : List Object
  IsTruncated : Bool
  NextContinuationToken : Option String
  deriving DecidableEq, Repr

/-- The type `storageListObjectsItemOutput`. -/
structure storageListObjectsItemOutput where
  Path : String
  Size : Int := 0
  LastModified : String := ""
  Dir : Bool := false
  deriving DecidableEq, Repr

/-- The type `storageListObjectsOutput`. -/
abbrev storageListObjectsOutput := List storageListObjectsItemOutput

/-- The part of `storageClient` this code calls: `ListObjectsV2` answers a
request in environment `σ` with a page or an error, and a new environment. -/
structure storageClient (σ : Type) where
  ListObjectsV2 : σ → ListObjectsV2Input → Except Error ListObjectsV2Output × σ

/-! ## `listObjects` -/

/-- The variables of a running `listObjects`: the environment, the requests
sent and lines printed so far, and the locals `out`, `dirs`, `dirsOut`, `ct`.
The map `dirs` is only ever tested for membership, so it is a list of keys. -/
structure ListState (σ : Type) where
  env : σ
  requests : List ListObjectsV2Input := []
  stdout : List String := []
  out : storageListObjectsOutput := []
  dirs : List String := []
  dirsOut : storageListObjectsOutput := []
  ct : String := ""

/-- One pass of `for _, cp := range res.CommonPrefixes` (lines 188-201). -/
def listCommonPrefix {σ : Type} (stream : Bool) (st : ListState σ) (cp : CommonPrefix) :
    ListState σ :=
  let dir := ToString cp.Prefix
  if dir ∈ st.dirs then st
  else
    let st1 : ListState σ :=
      if stream then { st with stdout := st.stdout ++ [dir] }
      else { st with dirsOut := st.dirsOut ++ [{ Path := dir, Dir := true }] }
    { st1 with dirs := st1.dirs ++ [dir] }

/-- One pass of `for _, o := range res.Contents` (lines 204-214). -/
def listContent {σ : Type} (stream : Bool) (st : ListState σ) (o : Object) : ListState σ :=
  if stream then { st with stdout := st.stdout ++ [ToString o.Key] }
  else
    { st with out := st.out ++ [{ Path := ToString o.Key,
                                  Size := o.Size,
                                  LastModified := o.LastModified.Format storageTimestampFormat }] }

/-- The body of the loop of `listObjects` after a successful call (lines 185-214). -/
def listPage {σ : Type} (recursive stream : Bool) (st : ListState σ)
    (res : ListObjectsV2Output) : ListState σ :=
  let st1 : ListState σ := { st with ct := ToString res.NextContinuationToken }
  let st2 : ListState σ :=
    if !recursive then res.CommonPrefixes.foldl (listCommonPrefix stream) st1 else st1
  res.Contents.foldl (listContent stream) st2

/-- The request built at the top of the loop of `listObjects` (lines 172-179). -/
def listRequest (bucket pfx : String) (recursive : Bool) (ct : String) : ListObjectsV2Input :=
  let req : ListObjectsV2Input :=
    { Bucket := awsString bucket, Prefix := awsString pfx, ContinuationToken := awsString ct }
  if !recursive then { req with Delimiter := awsString "/" } else req

/-- The loop of `listObjects` (lines 171-219).  The second component is `none`
when the fuel ran out inside the loop, `some (some err)` when the loop was left
by `return nil, err`, and `some none` when it was left by `break`. -/
def listObjectsLoop {σ : Type} (c : storageClient σ) (bucket pfx : String)
    (recursive stream : Bool) : Nat → ListState σ → ListState σ × Option (Option Error)
  | 0, st => (st, none)
  | fuel + 1, st =>
    let req := listRequest bucket pfx recursive st.ct
    let r := c.ListObjectsV2 st.env req
    let st1 : ListState σ := { st with env := r.2, requests := st.requests ++ [req] }
    match r.1 with
    | .error err => (st1, some (some err))
    | .ok res =>
      let st2 := listPage recursive stream st1 res
      if !res.IsTruncated then (st2, some none)
      else listObjectsLoop c bucket pfx recursive stream fuel st2

/-- What a call of `listObjects` did: the environment it left, the List
requests it sent, the lines it printed, and its return value (`none` while the
loop is still running, `.error err` for `nil, err`, `.ok out` for `&out, nil`). -/
structure ListRun (σ : Type) where
  env : σ
  requests : List ListObjectsV2Input
  stdout : List String
  result : Option (Except Error storageListObjectsOutput)

/-- The method `storageClient.listObjects` (lines 165-227), started in
environment `s` with the given fuel. -/
def listObjects {σ : Type} (fuel : Nat) (c : storageClient σ) (s : σ) (bucket pfx : String)
    (recursive stream : Bool) : ListRun σ :=
  let r := listObjectsLoop c bucket pfx recursive stream fuel { env := s }
  let st := r.1
  { env := st.env
    requests := st.requests
    stdout := st.stdout
    result :=
      match r.2 with
      | none => none
      | some (some err) => some (.error err)
      | some none =>
        -- push dir records to the top of the output list
        let out := if !stream && !recursive then st.dirsOut ++ st.out else st.out
        some (.ok out) }

/-! ## `forEachObject` -/

/-- The variables of a running `forEachObject`: the environment, the requests
sent and the objects handed to the callback so far, and the locals `dirs`, `ct`. -/
structure WalkState (σ : Type) where
  env : σ
  requests : List ListObjectsV2Input := []
  visited : List Object := []
  dirs : List String := []
  ct : String := ""

/-- The loop `for _, o := range res.Contents` of `forEachObject` (lines
103-127).  The second component is the error of a failed callback, which makes
the whole function return, or `none` when the range was walked to its end. -/
def walkContents {σ : Type} (fn : σ → Object → Option Error × σ) (pfx : String)
    (recursive : Bool) : List Object → WalkState σ → WalkState σ × Option Error
  | [], st => (st, none)
  | o :: os, st =>
    let parts := SplitN (TrimPrefix (ToString o.Key) pfx) '/' 2
    if parts.length > 1 && !recursive then
      let dir := Base (parts.headD "")
      let st1 : WalkState σ := if dir ∈ st.dirs then st else { st with dirs := st.dirs ++ [dir] }
      walkContents fn pfx recursive os st1
    else if !recursive && !HasSuffix pfx "/" && ToString o.Key != pfx then
      walkContents fn pfx recursive os st
    else
      let r := fn st.env o
      let st1 : WalkState σ := { st with env := r.2, visited := st.visited ++ [o] }
      match r.1 with
      | some err => (st1, some err)
      | none => walkContents fn pfx recursive os st1

/-- The request built at the top of the loop of `forEachObject` (lines 93-97). -/
def walkRequest (bucket pfx ct : String) : ListObjectsV2Input :=
  { Bucket := awsString bucket, Prefix := awsString pfx, ContinuationToken := awsString ct }

/-- The loop of `forEachObject` (lines 92-132), for the prefix already
resolved.  The second component is `none` when the fuel ran out inside the
loop, `some (some err)` when the loop was left by `return err`, and `some none`
when it was left by `break`. -/
def forEachObjectLoop {σ : Type} (c : storageClient σ) (fn : σ → Object → Option Error × σ)
    (bucket pfx : String) (recursive : Bool) :
    Nat → WalkState σ → WalkState σ × Option (Option Error)
  | 0, st => (st, none)
  | fuel + 1, st =>
    let req := walkRequest bucket pfx st.ct
    let r := c.ListObjectsV2 st.env req
    let st1 : WalkState σ := { st with env := r.2, requests := st.requests ++ [req] }
    match r.1 with
    | .error err => (st1, some (some err))
    | .ok res =>
      let st2 : WalkState σ := { st1 with ct := ToString res.NextContinuationToken }
      let w := walkContents fn pfx recursive res.Contents st2
      match w.2 with
      | some err => (w.1, some (some err))
      | none =>
        if !res.IsTruncated then (w.1, some none)
        else forEachObjectLoop c fn bucket pfx recursive fuel w.1

/-- What a call of `forEachObject` did: the environment it left, the List
requests it sent, the objects it handed to the callback, the keys of `dirs`,
and its return value (`none` while the loop is still running, `some none` for
a nil error, `some (some err)` for `err`). -/
structure WalkRun (σ : Type) where
  env : σ
  requests : List ListObjectsV2Input
  visited : List Object
  dirs : List String
  result : Option (Option Error)

/-- The method `storageClient.forEachObject` (lines 81-135), started in
environment `s` with the given fuel. -/
def forEachObject {σ : Type} (fuel : Nat) (c : storageClient σ) (s : σ) (bucket pfx : String)
    (recursive : Bool) (fn : σ → Object → Option Error × σ) : WalkRun σ :=
  -- the actual bucket root is an empty prefix
  let pfx1 := if pfx = "/" then "" else pfx
  let r := forEachObjectLoop c fn bucket pfx1 recursive fuel { env := s }
  { env := r.1.env
    requests := r.1.requests
    visited := r.1.visited
    dirs := r.1.dirs
    result := r.2 }

/-! ## The `list` command -/

/-- The argument split of `storageListCmd.RunE` (lines 115-119): the pair
`(bucket, prefix)`. -/
def splitBucketPrefix (arg : String) : String × String :=
  let parts := SplitN arg '/' 2
  let bucket := parts.headD ""
  let pfx := if parts.length > 1 then parts.getD 1 "" else ""
  (bucket, pfx)

/-! ## `copyObject` -/

/-- The string type `s3types.MetadataDirective`. -/
abbrev MetadataDirective := String

/-- The constant `s3types.MetadataDirectiveCopy`. -/
def MetadataDirectiveCopy : MetadataDirective := "COPY"

/-- The constant `s3types.MetadataDirectiveReplace`. -/
def MetadataDirectiveReplace : MetadataDirective := "REPLACE"

/-- An `s3.GetObjectInput`, with the fields this code sets. -/
structure GetObjectInput where
  Bucket : Option String
  Key : Option String
  deriving DecidableEq, Repr

/-- An `s3.GetObjectAclInput`, with the fields this code sets. -/
structure GetObjectAclInput where
  Bucket : Option String
  Key : Option String
  deriving DecidableEq, Repr

/-- An `s3.GetObjectOutput`, with the fields this code reads; the map
`Metadata` is kept as its list of entries. -/
structure GetObjectOutput where
  Metadata : List (String × String)
  CacheControl : Option String
  ContentDisposition : Option String
  ContentEncoding : Option String
  ContentLanguage : Option String
  ContentType : Option String
  Expires : Option Time
  deriving DecidableEq, Repr

/-- An `s3types.Grant`, as the identity of the grantee and the permission. -/
structure Grant where
  Grantee : Option String
  Permission : String
  deriving DecidableEq, Repr

/-- An `s3.GetObjectAclOutput`. -/
structure GetObjectAclOutput where
  Grants : List Grant
  deriving DecidableEq, Repr

/-- An `s3.CopyObjectInput`: the fields `copyObject` sets, and the fields that
carry an ACL, which it leaves to `storageACLToCopyObject`. -/
structure CopyObjectInput where
  Bucket : Option String
  Key : Option String
  CopySource : Option String
  Metadata : List (String × String)
  MetadataDirective : MetadataDirective
  CacheControl : Option String
  ContentDisposition : Option String
  ContentEncoding : Option String
  ContentLanguage : Option String
  ContentType : Option String
  Expires : Option Time
  ACL : String := ""
  GrantFullControl : Option String := none
  GrantRead : Option String := none
  GrantReadACP : Option String := none
  GrantWriteACP : Option String := none
  deriving DecidableEq, Repr

/-- The part of `storageClient` that `copyObject` calls. -/
structure objectClient (σ : Type) where
  GetObject : σ → GetObjectInput → Except Error GetObjectOutput × σ
  GetObjectAcl : σ → GetObjectAclInput → Except Error GetObjectAclOutput × σ

/-- A call that `copyObject` makes to the service. -/
inductive ObjectCall where
  | GetObject (input : GetObjectInput)
  | GetObjectAcl (input : GetObjectAclInput)
  deriving DecidableEq, Repr

/-- What a call of `copyObject` did: the environment it left, the calls it made
to the service in order, and its return value (`.error err` for `nil, err`,
`.ok req` for `&copyObject, nil`). -/
structure CopyRun (σ : Type) where
  env : σ
  calls : List ObjectCall
  result : Except Error CopyObjectInput

/-- The method `storageClient.copyObject` (lines 140-179), started in
environment `s`.  The helper `storageACLToCopyObject` is not part of the listed
sources; it is the argument `aclToCopy`, which receives the fetched ACL and the
request and hands back the request as it has changed it. -/
def copyObject {σ : Type} (c : objectClient σ)
    (aclToCopy : GetObjectAclOutput → CopyObjectInput → CopyObjectInput)
    (s : σ) (bucket key : String) : CopyRun σ :=
  let in1 : GetObjectInput := { Bucket := awsString bucket, Key := awsString key }
  let r1 := c.GetObject s in1
  match r1.1 with
  | .error err =>
    { env := r1.2
      calls := [.GetObject in1]
      result := .error (.wrap "unable to retrieve object information" err) }
  | .ok srcObject =>
    -- Object ACL are reset during a CopyObject operation
    let in2 : GetObjectAclInput := { Bucket := awsString bucket, Key := awsString key }
    let r2 := c.GetObjectAcl r1.2 in2
    match r2.1 with
    | .error err =>
      { env := r2.2
        calls := [.GetObject in1, .GetObjectAcl in2]
        result := .error (.wrap "unable to retrieve object ACL" err) }
    | .ok acl =>
      let copyObject : CopyObjectInput :=
        { Bucket := awsString bucket
          Key := awsString key
          CopySource := awsString (bucket ++ "/" ++ key)
          Metadata := srcObject.Metadata
          MetadataDirective := MetadataDirectiveReplace
          CacheControl := srcObject.CacheControl
          ContentDisposition := srcObject.ContentDisposition
          ContentEncoding := srcObject.ContentEncoding
          ContentLanguage := srcObject.ContentLanguage
          ContentType := srcObject.ContentType
          Expires := srcObject.Expires }
      { env := r2.2
        calls := [.GetObject in1, .GetObjectAcl in2]
        result := .ok (aclToCopy acl copyObject) }

/-- Whether a helper leaves alone every field of the request that `copyObject`
has set (it may write the fields that carry the ACL). -/
def keepsCopyFields (aclToCopy : GetObjectAclOutput → CopyObjectInput → CopyObjectInput) :
    Prop :=
  ∀ acl o,
    (aclToCopy acl o).Bucket = o.Bucket ∧ (aclToCopy acl o).Key = o.Key
      ∧ (aclToCopy acl o).CopySource = o.CopySource
      ∧ (aclToCopy acl o).Metadata = o.Metadata
      ∧ (aclToCopy acl o).MetadataDirective = o.MetadataDirective
      ∧ (aclToCopy acl o).CacheControl = o.CacheControl
      ∧ (aclToCopy acl o).ContentDisposition = o.ContentDisposition
      ∧ (aclToCopy acl o).ContentEncoding = o.ContentEncoding
      ∧ (aclToCopy acl o).ContentLanguage = o.ContentLanguage
      ∧ (aclToCopy acl o).ContentType = o.ContentType
      ∧ (aclToCopy acl o).Expires = o.Expires

/-! ## Scripted services -/

/-- An environment that holds the answers a service will give, in order, next
to whatever else (`user`) a callback works on. -/
structure Script (τ : Type) where
  answers : List (Except Error ListObjectsV2Output)
  user : τ

/-- A client whose service hands out the scripted answers one per call,
whatever the request, and fails once they are used up. -/
def scripted (τ : Type) : storageClient (Script τ) where
  ListObjectsV2 s _ :=
    match s.answers with
    | [] => (.error (.raw "no answer left"), s)
    | a :: rest => (a, { s with answers := rest })

/-- A callback that works on the `user` part of a scripted environment only. -/
def onUser {τ : Type} (fn : τ → Object → Option Error × τ) :
    Script τ → Object → Option Error × Script τ :=
  fun s o => ((fn s.user o).1, { s with user := (fn s.user o).2 })

/-! ## Expected results, in the words of the specification -/

/-- The distinct elements of a list, each at the place of its first occurrence. -/
def firstSeen : List String → List String
  | [] => []
  | x :: xs => x :: (firstSeen xs).filter (fun y => y != x)

/-- The common prefixes of a page, as strings. -/
def pagePrefixes (p : ListObjectsV2Output) : List String :=
  p.CommonPrefixes.map (fun cp => ToString cp.Prefix)

/-- The keys of the Contents entries of a page, as strings. -/
def pageKeys (p : ListObjectsV2Output) : List String :=
  p.Contents.map (fun o => ToString o.Key)

/-- The directory record of a common prefix. -/
def dirRecord (d : String) : storageListObjectsItemOutput := { Path := d, Dir := true }

/-- The object record of a Contents entry. -/
def objectRecord (o : Object) : storageListObjectsItemOutput :=
  { Path := ToString o.Key, Size := o.Size,
    LastModified := o.LastModified.Format storageTimestampFormat }

/-- The directories first seen in `ds`, those already in `seen` left out. -/
def newDirs (seen ds : List String) : List String :=
  (firstSeen ds).filter (fun d => decide (d ∉ seen))

/-- The buffered result the specification describes for the pages `ps`: in flat
mode one directory record per distinct common prefix in first-seen order, then
one object record per Contents entry in page order; in recursive mode only the
object records. -/
def bufferedOutput (recursive : Bool) (ps : List ListObjectsV2Output) :
    storageListObjectsOutput :=
  (if recursive then [] else (firstSeen (ps.flatMap pagePrefixes)).map dirRecord)
    ++ (ps.flatMap (fun p => p.Contents)).map objectRecord

/-- The lines the specification describes for one page in streaming mode, given
the pages that came before it: in flat mode the common prefixes of the page not
seen before, then the keys of the page. -/
def pageLines (recursive : Bool) (earlier : List ListObjectsV2Output)
    (p : ListObjectsV2Output) : List String :=
  (if recursive then [] else newDirs (earlier.flatMap pagePrefixes) (pagePrefixes p))
    ++ pageKeys p

/-- The lines of the pages `ps` in page order, `earlier` being the pages before them. -/
def streamLinesFrom (recursive : Bool) :
    List ListObjectsV2Output → List ListObjectsV2Output → List String
  | _, [] => []
  | earlier, p :: ps =>
    pageLines recursive earlier p ++ streamLinesFrom recursive (earlier ++ [p]) ps

/-- The lines of a whole traversal over the pages `ps`. -/
def streamLines (recursive : Bool) (ps : List ListObjectsV2Output) : List String :=
  streamLinesFrom recursive [] ps

/-! ## Auxiliary definitions -/

/-- The token a page hands to the next request. -/
def nextToken (p : ListObjectsV2Output) : String := ToString p.NextContinuationToken

/-- The end of a traversal that is answered by the truncated pages `init`, then
by `last`, which is an error or a page that is not truncated. -/
def listEnd {σ : Type} (st : ListState σ) (last : Except Error ListObjectsV2Output)
    (recursive stream : Bool) : ListState σ × Option (Option Error) :=
  match last with
  | .error err => (st, some (some err))
  | .ok p => (listPage recursive stream st p, some none)

/-- Whether an answer ends a traversal: an error, or a page that is not truncated. -/
def isLast : Except Error ListObjectsV2Output → Bool
  | .error _ => true
  | .ok p => !p.IsTruncated

/-- Whether the body of the loop over `res.Contents` in `forEachObject` reaches
the call of the callback for the object `o` (neither `continue` is taken). -/
def reachesCallback (pfx : String) (recursive : Bool) (o : Object) : Bool :=
  !(decide ((SplitN (TrimPrefix (ToString o.Key) pfx) '/' 2).length > 1) && !recursive)
    && !(!recursive && !HasSuffix pfx "/" && ToString o.Key != pfx)

/-- The pages among one answer: the page itself, or none for an error. -/
def answerPages : Except Error ListObjectsV2Output → List ListObjectsV2Output
  | .error _ => []
  | .ok p => [p]

/-- The return value of a traversal whose last answer is `last`. -/
def answerResult : Except Error ListObjectsV2Output → Option (Option Error)
  | .error err => some (some err)
  | .ok _ => some none

/-- No object record of `out` has a path beneath (starting with) the path of a
directory record of `out`. -/
def dirsNeverObjects (out : storageListObjectsOutput) : Prop :=
  ∀ d ∈ out, d.Dir = true → ∀ o ∈ out, o.Dir = false → HasPrefix o.Path d.Path = false

/-- No Contents key of the pages `ps` lies beneath a common prefix of one of
them, as is the case for the pages of a service that groups keys by delimiter. -/
def pagesSeparated (ps : List ListObjectsV2Output) : Prop :=
  ∀ d ∈ ps.flatMap pagePrefixes, ∀ k ∈ ps.flatMap pageKeys, HasPrefix k d = false

/-! ## Sample values -/

/-- A listed object with the given key. -/
def sampleObject (key : String) : Object :=
  { Key := some key, Size := 1, LastModified := ⟨"2021-03-04 05:06:07 UTC"⟩ }

/-- First page of the scenario of the specification: keys `a/x`, `a/y`, `b/z`,
prefixes `a/`, `b/`, truncated, cursor `T1`. -/
def scenarioPage1 : ListObjectsV2Output :=
  { CommonPrefixes := [⟨some "a/"⟩, ⟨some "b/"⟩]
    Contents := [sampleObject "a/x", sampleObject "a/y", sampleObject "b/z"]
    IsTruncated := true
    NextContinuationToken := some "T1" }

/-- Second page of the scenario of the specification: key `c`, not truncated. -/
def scenarioPage2 : ListObjectsV2Output :=
  { CommonPrefixes := []
    Contents := [sampleObject "c"]
    IsTruncated := false
    NextContinuationToken := none }

/-- A page as a delimiter-grouping service sends it: prefixes `a/`, `b/`, key
`readme`, truncated, cursor `T1`. -/
def groupedPage : ListObjectsV2Output :=
  { CommonPrefixes := [⟨some "a/"⟩, ⟨some "b/"⟩, ⟨some "a/"⟩]
    Contents := [sampleObject "readme"]
    IsTruncated := true
    NextContinuationToken := some "T1" }

/-- A truncated page that comes without a cursor. -/
def cursorlessPage : ListObjectsV2Output :=
  { CommonPrefixes := []
    Contents := [sampleObject "k"]
    IsTruncated := true
    NextContinuationToken := none }

/-- A page that is not truncated although it carries a cursor. -/
def finalPageWithCursor : ListObjectsV2Output :=
  { CommonPrefixes := []
    Contents := [sampleObject "z"]
    IsTruncated := false
    NextContinuationToken := some "T9" }

/-- A service that answers every request with the same truncated page and the
same cursor. -/
def alwaysTruncated : storageClient Unit where
  ListObjectsV2 s _ :=
    (.ok { CommonPrefixes := [], Contents := [], IsTruncated := true,
           NextContinuationToken := some "T" }, s)

/-- A callback that never fails and counts its calls. -/
def countingVisit : Nat → Object → Option Error × Nat :=
  fun n _ => (none, n + 1)

/-! ## More auxiliary definitions -/

/-- The state a callback reaches when it is called on the objects `os` in
turn from the state `u`, if none of the calls fails. -/
def visitsOk {τ : Type} (f : τ → Object → Option Error × τ) : τ → List Object → Option τ
  | u, [] => some u
  | u, o :: os =>
    match (f u o).1 with
    | some _ => none
    | none => visitsOk f (f u o).2 os

/-- The directory paths of a buffered result, in order. -/
def dirPaths (out : storageListObjectsOutput) : List String :=
  (out.filter (fun r => r.Dir)).map (fun r => r.Path)

/-! ## More sample values -/

/-- A service holding the keys `keys`, which answers a List request with one
page of the keys that start with the requested prefix. -/
def prefixService (keys : List String) : storageClient Unit where
  ListObjectsV2 s req :=
    (.ok { CommonPrefixes := []
           Contents := (keys.filter (fun k => HasPrefix k (ToString req.Prefix))).map sampleObject
           IsTruncated := false
           NextContinuationToken := none }, s)

/-- A callback that counts its calls and fails with `err` on call number `k`. -/
def failingOnCall (k : Nat) (err : Error) : Nat → Object → Option Error × Nat :=
  fun n _ => (if n + 1 = k then some err else none, n + 1)

/-- A page of five objects below `d/`, not truncated. -/
def fivePage : ListObjectsV2Output :=
  { CommonPrefixes := []
    Contents := [sampleObject "d/1", sampleObject "d/2", sampleObject "d/3",
      sampleObject "d/4", sampleObject "d/5"]
    IsTruncated := false
    NextContinuationToken := none }

/-- A fetched object with metadata and headers. -/
def sampleSource : GetObjectOutput :=
  { Metadata := [("owner", "ops")]
    CacheControl := some "no-cache"
    ContentDisposition := none
    ContentEncoding := some "gzip"
    ContentLanguage := none
    ContentType := some "text/plain"
    Expires := some ⟨"2030-01-01 00:00:00 UTC"⟩ }

/-- An object service that holds one object with one grant. -/
def sampleObjects : objectClient Unit where
  GetObject s _ := (.ok sampleSource, s)
  GetObjectAcl s _ := (.ok { Grants := [⟨some "alice", "READ"⟩] }, s)

/-- An object service whose ACL fetch fails. -/
def aclDenied : objectClient Unit where
  GetObject s _ := (.ok sampleSource, s)
  GetObjectAcl s _ := (.error (.raw "access denied"), s)

/-- An object service without the object. -/
def noSuchObject : objectClient Unit where
  GetObject s _ := (.error (.raw "no such key"), s)
  GetObjectAcl s _ := (.ok { Grants := [] }, s)

/-- A helper that writes the read grants of the ACL into the request. -/
def grantReaders (acl : GetObjectAclOutput) (o : CopyObjectInput) : CopyObjectInput :=
  let readers := (acl.Grants.filter (fun g => g.Permission == "READ")).map
    (fun g => ToString g.Grantee)
  { o with GrantRead := some (String.intercalate "," readers) }

/-- The directory lines of each of the pages `ps` in streaming flat mode,
`earlier` being the pages before them: for each page, its common prefixes not
seen before. -/
def streamDirsFrom :
    List ListObjectsV2Output → List ListObjectsV2Output → List (List String)
  | _, [] => []
  | earlier, p :: ps =>
    newDirs (earlier.flatMap pagePrefixes) (pagePrefixes p)
      :: streamDirsFrom (earlier ++ [p]) ps

/-! ## `dbaasMigrationStopCmd` -/

/-- The method `Error()` of a Go `error`: the message, with the message of the
wrapped error after a colon. -/
def Error.text : Error → String
  | .raw msg => msg
  | .wrap msg cause => msg ++ ": " ++ cause.text

/-- The assignment of a new value to a variable that holds one: the value it
held is lost. -/
def reassign {α : Type} (_old new : α) : α := new

/-- What `cmdRun` of `dbaasMigrationStopCmd` calls and does not define: the
lookup `dbaasGetType` (name, zone), the calls `GetDatabaseMigrationStatus`
(zone, name; only its error is read) and `Stop...DatabaseMigration` (zone,
name) of the API client `cs`, each a transition on an environment `σ`; the test
`errors.Is(err, exoapi.ErrNotFound)`; and `strconv.Quote`, which the verb `%q`
applies. -/
structure dbaasService (σ : Type) where
  dbaasGetType : σ → String → String → Except Error String × σ
  GetDatabaseMigrationStatus : σ → String → String → Except Error Unit × σ
  StopMysqlDatabaseMigration : σ → String → String → Option Error × σ
  StopPgDatabaseMigration : σ → String → String → Option Error × σ
  StopRedisDatabaseMigration : σ → String → String → Option Error × σ
  isNotFound : Error → Bool
  Quote : String → String

/-- A call that `cmdRun` makes to the service. -/
inductive MigrationCall where
  | GetType (name zone : String)
  | GetStatus (zone name : String)
  | Stop (dbType zone name : String)
  deriving DecidableEq, Repr

/-- How a call of `cmdRun` ends: it returns an error value (`none` for nil), or
it panics by calling a nil function value. -/
inductive CmdOutcome where
  | returned (err : Option Error)
  | nilFunctionCall
  deriving DecidableEq, Repr

/-- What a call of `cmdRun` did: the environment it left, the calls it made to
the service in order, and how it ended. -/
structure MigrationStopRun (σ : Type) where
  env : σ
  calls : List MigrationCall
  outcome : CmdOutcome

/-- The map `stopMigrationFuncs` (lines 47-51): the entry of a database type,
`none` where the map has no entry (a lookup then yields the nil function). -/
def stopMigrationFuncs {σ : Type} (svc : dbaasService σ) (dbType : String) :
    Option (σ → String → String → Option Error × σ) :=
  if dbType = "mysql" then some svc.StopMysqlDatabaseMigration
  else if dbType = "pg" then some svc.StopPgDatabaseMigration
  else if dbType = "redis" then some svc.StopRedisDatabaseMigration
  else none

/-- The method `dbaasMigrationStopCmd.cmdRun` (lines 36-77), for the command
fields `Name` and `Zone`, started in environment `s`.  The helper
`decorateAsyncOperation` runs the function it is given. -/
def cmdRun {σ : Type} (svc : dbaasService σ) (s : σ) (Name Zone : String) :
    MigrationStopRun σ :=
  let r1 := svc.dbaasGetType s Name Zone
  match r1.1 with
  | .error err =>
    { env := r1.2
      calls := [.GetType Name Zone]
      outcome :=
        if svc.isNotFound err then
          .returned (some (.raw ("resource not found in zone " ++ svc.Quote Zone)))
        else .returned (some err) }
  | .ok dbType =>
    -- if _, ok := stopMigrationFuncs[dbType]; !ok { err = fmt.Errorf(...) }
    let err1 : Option Error :=
      if (stopMigrationFuncs svc dbType).isNone then
        some (.raw ("migrations not supported for database type " ++ svc.Quote dbType))
      else none
    -- _, err = cs.GetDatabaseMigrationStatus(ctx, c.Zone, c.Name)
    let r2 := svc.GetDatabaseMigrationStatus r1.2 Zone Name
    let err2 : Option Error :=
      reassign err1 (match r2.1 with
        | .error err => some err
        | .ok _ => none)
    match err2 with
    | some err =>
      { env := r2.2
        calls := [.GetType Name Zone, .GetStatus Zone Name]
        outcome :=
          if svc.isNotFound err then
            .returned (some (.raw ("migration for database " ++ svc.Quote Name
              ++ " not running in zone " ++ svc.Quote Zone)))
          else
            .returned (some (.raw ("failed to retrieve migration status: " ++ err.text))) }
    | none =>
      -- err = stopMigrationFuncs[dbType](ctx, c.Zone, c.Name)
      match stopMigrationFuncs svc dbType with
      | none =>
        { env := r2.2
          calls := [.GetType Name Zone, .GetStatus Zone Name]
          outcome := .nilFunctionCall }
      | some stop =>
        let r3 := stop r2.2 Zone Name
        { env := r3.2
          calls := [.GetType Name Zone, .GetStatus Zone Name, .Stop dbType Zone Name]
          outcome :=
            match r3.1 with
            | some err =>
              if svc.isNotFound err then
                .returned (some (.raw ("migration not running in zone " ++ svc.Quote Zone)))
              else .returned (some (.raw ("failed to stop migration: " ++ err.text)))
            | none => .returned none }

/-- The object paths of a buffered result, in order. -/
def objectPaths (out : storageListObjectsOutput) : List String :=
  (out.filter (fun r => !r.Dir)).map (fun r => r.Path)

/-! ## Sample values for the last sections -/

/-- A truncated page with the key `c` and the cursor `T1`. -/
def repeatedKeyPage : ListObjectsV2Output :=
  { CommonPrefixes := []
    Contents := [sampleObject "c"]
    IsTruncated := true
    NextContinuationToken := some "T1" }

/-- A page of the bucket root: the keys `readme` and `a/x`, and an object whose
key is empty. -/
def rootPage : ListObjectsV2Output :=
  { CommonPrefixes := []
    Contents := [sampleObject "readme", sampleObject "a/x", sampleObject ""]
    IsTruncated := false
    NextContinuationToken := none }

/-- A database service whose database `db` has the type `dbType`; the status
lookup answers `status`, and stopping a migration succeeds. -/
def sampleDbaas (dbType : String) (status : Except Error Unit) : dbaasService Unit where
  dbaasGetType s _ _ := (.ok dbType, s)
  GetDatabaseMigrationStatus s _ _ := (status, s)
  StopMysqlDatabaseMigration s _ _ := (none, s)
  StopPgDatabaseMigration s _ _ := (none, s)
  StopRedisDatabaseMigration s _ _ := (none, s)
  isNotFound err := err == .raw "resource not found"
  Quote str := "\"" ++ str ++ "\""

/-! ## First-seen order -/

theorem mem_firstSeen (x : String) (xs : List String) : x ∈ firstSeen xs ↔ x ∈ xs := by
  induction xs with
  | nil => simp [firstSeen]
  | cons y ys ih =>
    simp only [firstSeen, List.mem_cons, List.mem_filter, ih]
    constructor
    · rintro (h | ⟨h, _⟩)
      · exact Or.inl h
      · exact Or.inr h
    · intro h
      by_cases hxy : x = y
      · exact Or.inl hxy
      · rcases h with h | h
        · exact Or.inl h
        · exact Or.inr ⟨h, by simpa using hxy⟩

theorem newDirs_nil (seen : List String) : newDirs seen [] = [] := by
  simp [newDirs, firstSeen]

theorem newDirs_cons_of_mem (seen ds : List String) (d : String) (h : d ∈ seen) :
    newDirs seen (d :: ds) = newDirs seen ds := by
  simp only [newDirs, firstSeen, List.filter_cons, List.filter_filter]
  simp only [h, not_true_eq_false, decide_False, Bool.false_eq_true, if_false]
  apply List.filter_congr
  intro x _
  by_cases hx : x ∈ seen
  · simp [hx]
  · have : x ≠ d := fun e => hx (e ▸ h)
    simp [hx, this]

theorem newDirs_cons_of_not_mem (seen ds : List String) (d : String) (h : d ∉ seen) :
    newDirs seen (d :: ds) = d :: newDirs (seen ++ [d]) ds := by
  simp only [newDirs, firstSeen, List.filter_cons, List.filter_filter]
  simp only [h, not_false_eq_true, decide_True, if_true]
  congr 1
  apply List.filter_congr
  intro x _
  by_cases hx : x ∈ seen <;> by_cases hxd : x = d <;> simp [hx, hxd]

theorem newDirs_append (seen xs ys : List String) :
    newDirs seen (xs ++ ys) = newDirs seen xs ++ newDirs (seen ++ newDirs seen xs) ys := by
  induction xs generalizing seen with
  | nil => simp [newDirs_nil]
  | cons x xs ih =>
    by_cases h : x ∈ seen
    · rw [List.cons_append, newDirs_cons_of_mem _ _ _ h, newDirs_cons_of_mem _ _ _ h, ih]
    · rw [List.cons_append, newDirs_cons_of_not_mem _ _ _ h, newDirs_cons_of_not_mem _ _ _ h, ih]
      simp

theorem newDirs_empty (ds : List String) : newDirs [] ds = firstSeen ds := by
  simp [newDirs]

theorem newDirs_congr (seen seen2 ds : List String) (h : ∀ d, d ∈ seen ↔ d ∈ seen2) :
    newDirs seen ds = newDirs seen2 ds := by
  unfold newDirs
  apply List.filter_congr
  intro x _
  simp [h x]

theorem mem_newDirs (seen ds : List String) (d : String) :
    d ∈ newDirs seen ds ↔ d ∈ ds ∧ d ∉ seen := by
  simp [newDirs, List.mem_filter, mem_firstSeen]

/-! ## One page of `listObjects` -/

theorem foldl_listCommonPrefix {σ : Type} (stream : Bool) (cps : List CommonPrefix)
    (st : ListState σ) :
    cps.foldl (listCommonPrefix stream) st =
      { st with
        stdout := if stream then
            st.stdout ++ newDirs st.dirs (cps.map (fun cp => ToString cp.Prefix))
          else st.stdout
        dirsOut := if stream then st.dirsOut
          else st.dirsOut ++ (newDirs st.dirs (cps.map (fun cp => ToString cp.Prefix))).map dirRecord
        dirs := st.dirs ++ newDirs st.dirs (cps.map (fun cp => ToString cp.Prefix)) } := by
  induction cps generalizing st with
  | nil => cases stream <;> simp [newDirs_nil]
  | cons cp cps ih =>
    rw [List.foldl_cons, ih]
    by_cases h : ToString cp.Prefix ∈ st.dirs
    · simp [listCommonPrefix, h, newDirs_cons_of_mem]
    · cases stream <;> simp [listCommonPrefix, h, newDirs_cons_of_not_mem, dirRecord]

theorem foldl_listContent {σ : Type} (stream : Bool) (os : List Object) (st : ListState σ) :
    os.foldl (listContent stream) st =
      { st with
        stdout := if stream then st.stdout ++ os.map (fun o => ToString o.Key) else st.stdout
        out := if stream then st.out else st.out ++ os.map objectRecord } := by
  induction os generalizing st with
  | nil => cases stream <;> simp
  | cons o os ih =>
    rw [List.foldl_cons, ih]
    cases stream <;> simp [listContent, objectRecord]

/-- The state after one page, field by field. -/
theorem listPage_eq {σ : Type} (recursive stream : Bool) (st : ListState σ)
    (p : ListObjectsV2Output) :
    listPage recursive stream st p =
      { env := st.env
        requests := st.requests
        stdout := if stream then
            st.stdout ++ ((if recursive then [] else newDirs st.dirs (pagePrefixes p)) ++ pageKeys p)
          else st.stdout
        out := if stream then st.out else st.out ++ p.Contents.map objectRecord
        dirs := if recursive then st.dirs else st.dirs ++ newDirs st.dirs (pagePrefixes p)
        dirsOut := if stream || recursive then st.dirsOut
          else st.dirsOut ++ (newDirs st.dirs (pagePrefixes p)).map dirRecord
        ct := ToString p.NextContinuationToken } := by
  unfold listPage
  cases recursive <;> cases stream <;>
    simp [foldl_listCommonPrefix, foldl_listContent, pagePrefixes, pageKeys]

/-! ## Several pages of `listObjects` -/

theorem listPage_withIO {σ : Type} (recursive stream : Bool) (st : ListState σ)
    (p : ListObjectsV2Output) (e : σ) (q : List ListObjectsV2Input) :
    listPage recursive stream { st with env := e, requests := q } p =
      { listPage recursive stream st p with env := e, requests := q } := by
  simp [listPage_eq]

theorem foldl_listPage_withIO {σ : Type} (recursive stream : Bool)
    (ps : List ListObjectsV2Output) (st : ListState σ) (e : σ) (q : List ListObjectsV2Input) :
    ps.foldl (listPage recursive stream) { st with env := e, requests := q } =
      { ps.foldl (listPage recursive stream) st with env := e, requests := q } := by
  induction ps generalizing st with
  | nil => rfl
  | cons p ps ih => rw [List.foldl_cons, listPage_withIO, ih, List.foldl_cons]

theorem foldl_listPage_buffers {σ : Type} (recursive stream : Bool)
    (ps : List ListObjectsV2Output) (st : ListState σ) :
    (ps.foldl (listPage recursive stream) st).out =
        (if stream then st.out else st.out ++ (ps.flatMap (fun p => p.Contents)).map objectRecord)
      ∧ (ps.foldl (listPage recursive stream) st).dirs =
        (if recursive then st.dirs else st.dirs ++ newDirs st.dirs (ps.flatMap pagePrefixes))
      ∧ (ps.foldl (listPage recursive stream) st).dirsOut =
        (if stream || recursive then st.dirsOut
          else st.dirsOut ++ (newDirs st.dirs (ps.flatMap pagePrefixes)).map dirRecord) := by
  induction ps generalizing st with
  | nil => cases recursive <;> cases stream <;> simp [newDirs_nil]
  | cons p ps ih =>
    rw [List.foldl_cons]
    obtain ⟨h1, h2, h3⟩ := ih (listPage recursive stream st p)
    rw [h1, h2, h3]
    cases recursive <;> cases stream <;>
      simp [listPage_eq, List.flatMap_cons, newDirs_append]

theorem foldl_listPage_stdout {σ : Type} (recursive stream : Bool)
    (ps earlier : List ListObjectsV2Output) (st : ListState σ)
    (hseen : recursive = false → ∀ d, d ∈ st.dirs ↔ d ∈ earlier.flatMap pagePrefixes) :
    (ps.foldl (listPage recursive stream) st).stdout =
      if stream then st.stdout ++ streamLinesFrom recursive earlier ps else st.stdout := by
  induction ps generalizing st earlier with
  | nil => cases stream <;> simp [streamLinesFrom]
  | cons p ps ih =>
    rw [List.foldl_cons, ih (earlier ++ [p])]
    · cases recursive
      · have hc := newDirs_congr _ _ (pagePrefixes p) (hseen rfl)
        cases stream <;> simp [listPage_eq, streamLinesFrom, pageLines, hc]
      · cases stream <;> simp [listPage_eq, streamLinesFrom, pageLines]
    · intro hr d
      subst hr
      have := hseen rfl d
      simp only [listPage_eq, Bool.false_eq_true, if_false, List.mem_append, mem_newDirs,
        List.flatMap_append, List.flatMap_cons, List.flatMap_nil, List.append_nil, this]
      tauto

/-! ## The loop of `listObjects` against a scripted service -/

theorem scripted_cons {τ : Type} (a : Except Error ListObjectsV2Output)
    (rest : List (Except Error ListObjectsV2Output)) (user : τ) (req : ListObjectsV2Input) :
    (scripted τ).ListObjectsV2 ⟨a :: rest, user⟩ req = (a, ⟨rest, user⟩) := rfl

theorem listPage_env {σ : Type} (recursive stream : Bool) (st : ListState σ)
    (p : ListObjectsV2Output) : (listPage recursive stream st p).env = st.env := by
  rw [listPage_eq]

theorem listPage_ct {σ : Type} (recursive stream : Bool) (st : ListState σ)
    (p : ListObjectsV2Output) :
    (listPage recursive stream st p).ct = ToString p.NextContinuationToken := by
  rw [listPage_eq]

theorem listObjectsLoop_scripted {τ : Type} (bucket pfx : String) (recursive stream : Bool)
    (init : List ListObjectsV2Output) (last : Except Error ListObjectsV2Output)
    (rest : List (Except Error ListObjectsV2Output)) (user : τ) (fuel : Nat)
    (hfuel : init.length < fuel)
    (hinit : ∀ p ∈ init, p.IsTruncated = true) (hlast : isLast last = true)
    (st : ListState (Script τ))
    (henv : st.env = ⟨init.map Except.ok ++ last :: rest, user⟩) :
    listObjectsLoop (scripted τ) bucket pfx recursive stream fuel st =
      listEnd
        { init.foldl (listPage recursive stream) st with
          env := ⟨rest, user⟩
          requests := st.requests ++
            (st.ct :: init.map nextToken).map (listRequest bucket pfx recursive) }
        last recursive stream := by
  induction init generalizing st fuel with
  | nil =>
    obtain ⟨n, rfl⟩ : ∃ n, fuel = n + 1 := ⟨fuel - 1, by simp at hfuel; omega⟩
    rw [listObjectsLoop, henv]
    simp only [List.map_nil, List.nil_append, scripted_cons]
    cases last with
    | error err => simp [listEnd]
    | ok p =>
      have hp : p.IsTruncated = false := by simpa [isLast] using hlast
      simp [listEnd, hp, listPage_withIO]
  | cons p init ih =>
    obtain ⟨n, rfl⟩ : ∃ n, fuel = n + 1 := ⟨fuel - 1, by simp at hfuel; omega⟩
    have hp : p.IsTruncated = true := hinit p (List.mem_cons_self _ _)
    have hrest : ∀ q ∈ init, q.IsTruncated = true :=
      fun q hq => hinit q (List.mem_cons_of_mem _ hq)
    have hn : init.length < n := by simp at hfuel; omega
    rw [listObjectsLoop, henv]
    simp only [List.map_cons, List.cons_append, scripted_cons, hp, Bool.not_true,
      Bool.false_eq_true, if_false]
    rw [ih n hn hrest _ (by rw [listPage_env]), listPage_withIO, foldl_listPage_withIO]
    simp [listPage_ct, nextToken]

/-! ## `listObjects` against a scripted service -/

theorem foldl_listPage_snoc {σ : Type} (recursive stream : Bool)
    (ps : List ListObjectsV2Output) (p : ListObjectsV2Output) (st : ListState σ) :
    listPage recursive stream (ps.foldl (listPage recursive stream) st) p =
      (ps ++ [p]).foldl (listPage recursive stream) st := by
  rw [List.foldl_append]; rfl

/-- A traversal answered by the truncated pages `init` and then by a page
`last` that is not truncated. -/
theorem listObjects_scripted_ok {τ : Type} (bucket pfx : String) (recursive stream : Bool)
    (init : List ListObjectsV2Output) (last : ListObjectsV2Output)
    (rest : List (Except Error ListObjectsV2Output)) (user : τ) (fuel : Nat)
    (hfuel : init.length < fuel)
    (hinit : ∀ p ∈ init, p.IsTruncated = true) (hlast : last.IsTruncated = false) :
    listObjects fuel (scripted τ) ⟨init.map Except.ok ++ Except.ok last :: rest, user⟩
        bucket pfx recursive stream =
      { env := ⟨rest, user⟩
        requests := ("" :: init.map nextToken).map (listRequest bucket pfx recursive)
        stdout := if stream then streamLines recursive (init ++ [last]) else []
        result := some (.ok (if stream then [] else bufferedOutput recursive (init ++ [last]))) } := by
  unfold listObjects
  rw [listObjectsLoop_scripted bucket pfx recursive stream init (.ok last) rest user fuel hfuel
    hinit (by simp [isLast, hlast]) _ rfl]
  simp only [listEnd, listPage_withIO, foldl_listPage_snoc]
  obtain ⟨h1, h2, h3⟩ := foldl_listPage_buffers recursive stream (init ++ [last])
    ({ env := ⟨init.map Except.ok ++ Except.ok last :: rest, user⟩ } : ListState (Script τ))
  have h4 := foldl_listPage_stdout recursive stream (init ++ [last]) []
    ({ env := ⟨init.map Except.ok ++ Except.ok last :: rest, user⟩ } : ListState (Script τ))
    (by intro _ d; simp)
  simp only [h1, h3, h4]
  cases recursive <;> cases stream <;> simp [bufferedOutput, streamLines, newDirs_empty]

/-- A traversal answered by the truncated pages `init` and then by an error. -/
theorem listObjects_scripted_error {τ : Type} (bucket pfx : String) (recursive stream : Bool)
    (init : List ListObjectsV2Output) (err : Error)
    (rest : List (Except Error ListObjectsV2Output)) (user : τ) (fuel : Nat)
    (hfuel : init.length < fuel)
    (hinit : ∀ p ∈ init, p.IsTruncated = true) :
    listObjects fuel (scripted τ) ⟨init.map Except.ok ++ Except.error err :: rest, user⟩
        bucket pfx recursive stream =
      { env := ⟨rest, user⟩
        requests := ("" :: init.map nextToken).map (listRequest bucket pfx recursive)
        stdout := if stream then streamLines recursive init else []
        result := some (.error err) } := by
  unfold listObjects
  rw [listObjectsLoop_scripted bucket pfx recursive stream init (.error err) rest user fuel hfuel
    hinit (by simp [isLast]) _ rfl]
  simp only [listEnd]
  have h4 := foldl_listPage_stdout recursive stream init []
    ({ env := ⟨init.map Except.ok ++ Except.error err :: rest, user⟩ } : ListState (Script τ))
    (by intro _ d; simp)
  simp only [h4]
  cases stream <;> simp [streamLines]

/-! ## `forEachObject` against a scripted service -/

/-- What the loop over `res.Contents` leaves untouched when the callback works
on the `user` part only. -/
theorem walkContents_frame {τ : Type} (f : τ → Object → Option Error × τ) (pfx : String)
    (recursive : Bool) (os : List Object) (st : WalkState (Script τ)) :
    (walkContents (onUser f) pfx recursive os st).1.env.answers = st.env.answers
      ∧ (walkContents (onUser f) pfx recursive os st).1.requests = st.requests
      ∧ (walkContents (onUser f) pfx recursive os st).1.ct = st.ct := by
  induction os generalizing st with
  | nil => simp [walkContents]
  | cons o os ih =>
    rw [walkContents]
    simp only
    split
    · split
      · exact ih _
      · exact ih _
    · split
      · exact ih _
      · split
        · simp [onUser]
        · obtain ⟨h1, h2, h3⟩ := ih
            { st with env := (onUser f st.env o).2, visited := st.visited ++ [o] }
          exact ⟨by rw [h1]; simp [onUser], h2, h3⟩

/-- With a callback that never fails, the loop over `res.Contents` runs to its
end and visits the objects that reach the callback, in order. -/
theorem walkContents_total {σ : Type} (fn : σ → Object → Option Error × σ)
    (hfn : ∀ s o, (fn s o).1 = none) (pfx : String)
    (recursive : Bool) (os : List Object) (st : WalkState σ) :
    (walkContents fn pfx recursive os st).2 = none
      ∧ (walkContents fn pfx recursive os st).1.visited =
          st.visited ++ os.filter (reachesCallback pfx recursive) := by
  induction os generalizing st with
  | nil => simp [walkContents]
  | cons o os ih =>
    rw [walkContents]
    simp only
    split
    · rename_i h1
      have hr : reachesCallback pfx recursive o = false := by
        simp only [reachesCallback, h1]; rfl
      rw [List.filter_cons_of_neg (by simp [hr])]
      split
      · exact ih _
      · obtain ⟨h, h2⟩ := ih { st with dirs := st.dirs ++ [Base ((SplitN (TrimPrefix (ToString o.Key) pfx) '/' 2).headD "")] }
        exact ⟨h, h2⟩
    · rename_i h1
      split
      · rename_i h2
        have hr : reachesCallback pfx recursive o = false := by
          simp only [reachesCallback, h2]; simp
        rw [List.filter_cons_of_neg (by simp [hr])]
        exact ih _
      · rename_i h2
        have hr : reachesCallback pfx recursive o = true := by
          simp only [reachesCallback]
          simp only [Bool.not_eq_true] at h1 h2
          rw [h1, h2]; rfl
        rw [List.filter_cons_of_pos hr]
        split
        · rename_i err herr
          rw [hfn] at herr
          cases herr
        · obtain ⟨h, h3⟩ := ih { st with env := (fn st.env o).2, visited := st.visited ++ [o] }
          exact ⟨h, by rw [h3]; simp⟩

theorem scripted_answers {τ : Type} (s : Script τ) (a : Except Error ListObjectsV2Output)
    (rest : List (Except Error ListObjectsV2Output)) (req : ListObjectsV2Input)
    (h : s.answers = a :: rest) :
    (scripted τ).ListObjectsV2 s req = (a, { s with answers := rest }) := by
  simp [scripted, h]

theorem forEachObjectLoop_scripted {τ : Type} (f : τ → Object → Option Error × τ)
    (hf : ∀ u o, (f u o).1 = none) (bucket pfx : String) (recursive : Bool)
    (init : List ListObjectsV2Output) (last : Except Error ListObjectsV2Output)
    (rest : List (Except Error ListObjectsV2Output)) (fuel : Nat)
    (hfuel : init.length < fuel)
    (hinit : ∀ p ∈ init, p.IsTruncated = true) (hlast : isLast last = true)
    (st : WalkState (Script τ))
    (henv : st.env.answers = init.map Except.ok ++ last :: rest) :
    (forEachObjectLoop (scripted τ) (onUser f) bucket pfx recursive fuel st).1.env.answers = rest
      ∧ (forEachObjectLoop (scripted τ) (onUser f) bucket pfx recursive fuel st).1.requests =
          st.requests ++ (st.ct :: init.map nextToken).map (walkRequest bucket pfx)
      ∧ (forEachObjectLoop (scripted τ) (onUser f) bucket pfx recursive fuel st).1.visited =
          st.visited ++ ((init ++ answerPages last).flatMap (fun p => p.Contents)).filter
            (reachesCallback pfx recursive)
      ∧ (forEachObjectLoop (scripted τ) (onUser f) bucket pfx recursive fuel st).2 =
          answerResult last := by
  have hfn : ∀ (s : Script τ) (o : Object), (onUser f s o).1 = none := fun s o => hf s.user o
  induction init generalizing st fuel with
  | nil =>
    obtain ⟨n, rfl⟩ : ∃ n, fuel = n + 1 := ⟨fuel - 1, by simp at hfuel; omega⟩
    rw [forEachObjectLoop]
    simp only [List.map_nil, List.nil_append] at henv
    simp only [scripted_answers _ _ _ _ henv]
    cases last with
    | error err => simp [answerPages, answerResult]
    | ok p =>
      have hp : p.IsTruncated = false := by simpa [isLast] using hlast
      simp only [answerPages, answerResult, List.nil_append, List.flatMap_cons, List.flatMap_nil,
        List.append_nil, List.map_nil, List.map_cons]
      obtain ⟨h1, h2, h3⟩ := walkContents_frame f pfx recursive p.Contents
        { env := { st.env with answers := rest }
          requests := st.requests ++ [walkRequest bucket pfx st.ct]
          visited := st.visited
          dirs := st.dirs
          ct := ToString p.NextContinuationToken }
      obtain ⟨h4, h5⟩ := walkContents_total (onUser f) hfn pfx recursive p.Contents
        { env := { st.env with answers := rest }
          requests := st.requests ++ [walkRequest bucket pfx st.ct]
          visited := st.visited
          dirs := st.dirs
          ct := ToString p.NextContinuationToken }
      simp only [h4, hp, Bool.not_false, if_true]
      exact ⟨h1, h2, h5, trivial⟩
  | cons p init ih =>
    obtain ⟨n, rfl⟩ : ∃ n, fuel = n + 1 := ⟨fuel - 1, by simp at hfuel; omega⟩
    have hp : p.IsTruncated = true := hinit p (List.mem_cons_self _ _)
    have hrest : ∀ q ∈ init, q.IsTruncated = true :=
      fun q hq => hinit q (List.mem_cons_of_mem _ hq)
    have hn : init.length < n := by simp at hfuel; omega
    rw [forEachObjectLoop]
    simp only [List.map_cons, List.cons_append] at henv
    simp only [scripted_answers _ _ _ _ henv]
    obtain ⟨h1, h2, h3⟩ := walkContents_frame f pfx recursive p.Contents
      { env := { st.env with answers := init.map Except.ok ++ last :: rest }
        requests := st.requests ++ [walkRequest bucket pfx st.ct]
        visited := st.visited
        dirs := st.dirs
        ct := ToString p.NextContinuationToken }
    obtain ⟨h4, h5⟩ := walkContents_total (onUser f) hfn pfx recursive p.Contents
      { env := { st.env with answers := init.map Except.ok ++ last :: rest }
        requests := st.requests ++ [walkRequest bucket pfx st.ct]
        visited := st.visited
        dirs := st.dirs
        ct := ToString p.NextContinuationToken }
    simp only [h4, hp, Bool.not_true, Bool.false_eq_true, if_false]
    obtain ⟨g1, g2, g3, g4⟩ := ih n hn hrest _ h1
    refine ⟨g1, ?_, ?_, g4⟩
    · rw [g2, h2, h3]; simp [nextToken]
    · rw [g3, h5]; simp [List.flatMap_cons]

/-! ## Any service -/

/-- The loop over `res.Contents` sends no request and leaves `ct` alone,
whatever the callback does. -/
theorem walkContents_requests {σ : Type} (fn : σ → Object → Option Error × σ) (pfx : String)
    (recursive : Bool) (os : List Object) (st : WalkState σ) :
    (walkContents fn pfx recursive os st).1.requests = st.requests
      ∧ (walkContents fn pfx recursive os st).1.ct = st.ct := by
  induction os generalizing st with
  | nil => simp [walkContents]
  | cons o os ih =>
    rw [walkContents]
    simp only
    split
    · split
      · exact ih _
      · exact ih _
    · split
      · exact ih _
      · split
        · simp
        · exact ih { st with env := (fn st.env o).2, visited := st.visited ++ [o] }

/-- Every request of `forEachObject` carries the bucket and the resolved
prefix, and no delimiter. -/
theorem forEachObjectLoop_requests {σ : Type} (c : storageClient σ)
    (fn : σ → Object → Option Error × σ) (bucket pfx : String) (recursive : Bool)
    (fuel : Nat) (st : WalkState σ) :
    ∃ cts : List String,
      (forEachObjectLoop c fn bucket pfx recursive fuel st).1.requests =
        st.requests ++ cts.map (walkRequest bucket pfx) := by
  induction fuel generalizing st with
  | zero => exact ⟨[], by simp [forEachObjectLoop]⟩
  | succ n ih =>
    rw [forEachObjectLoop]
    simp only
    split
    · exact ⟨[st.ct], by simp⟩
    · rename_i res _
      have hw := walkContents_requests fn pfx recursive res.Contents
        { env := (c.ListObjectsV2 st.env (walkRequest bucket pfx st.ct)).2
          requests := st.requests ++ [walkRequest bucket pfx st.ct]
          visited := st.visited
          dirs := st.dirs
          ct := ToString res.NextContinuationToken }
      split
      · exact ⟨[st.ct], by rw [hw.1]; simp⟩
      · split
        · exact ⟨[st.ct], by rw [hw.1]; simp⟩
        · obtain ⟨cts, hc⟩ := ih (walkContents fn pfx recursive res.Contents
            { env := (c.ListObjectsV2 st.env (walkRequest bucket pfx st.ct)).2
              requests := st.requests ++ [walkRequest bucket pfx st.ct]
              visited := st.visited
              dirs := st.dirs
              ct := ToString res.NextContinuationToken }).1
          exact ⟨st.ct :: cts, by rw [hc, hw.1]; simp⟩

/-- Against a service that reports every page truncated, the loop of
`listObjects` is still running after any number of requests. -/
theorem listObjectsLoop_truncated {σ : Type} (c : storageClient σ)
    (hc : ∀ s req, ∃ p, (c.ListObjectsV2 s req).1 = .ok p ∧ p.IsTruncated = true)
    (bucket pfx : String) (recursive stream : Bool) (fuel : Nat) (st : ListState σ) :
    (listObjectsLoop c bucket pfx recursive stream fuel st).2 = none
      ∧ (listObjectsLoop c bucket pfx recursive stream fuel st).1.requests.length =
          st.requests.length + fuel := by
  induction fuel generalizing st with
  | zero => simp [listObjectsLoop]
  | succ n ih =>
    obtain ⟨p, hp, ht⟩ := hc st.env (listRequest bucket pfx recursive st.ct)
    rw [listObjectsLoop]
    simp only [hp, ht, Bool.not_true, Bool.false_eq_true, if_false]
    obtain ⟨h1, h2⟩ := ih (listPage recursive stream
      { st with env := (c.ListObjectsV2 st.env (listRequest bucket pfx recursive st.ct)).2
                requests := st.requests ++ [listRequest bucket pfx recursive st.ct] } p)
    refine ⟨h1, ?_⟩
    rw [h2, listPage_eq]
    simp; omega

/-- Against a service that reports every page truncated, and with a callback
that never fails, the loop of `forEachObject` is still running after any number
of requests. -/
theorem forEachObjectLoop_truncated {σ : Type} (c : storageClient σ)
    (hc : ∀ s req, ∃ p, (c.ListObjectsV2 s req).1 = .ok p ∧ p.IsTruncated = true)
    (fn : σ → Object → Option Error × σ) (hfn : ∀ s o, (fn s o).1 = none)
    (bucket pfx : String) (recursive : Bool) (fuel : Nat) (st : WalkState σ) :
    (forEachObjectLoop c fn bucket pfx recursive fuel st).2 = none
      ∧ (forEachObjectLoop c fn bucket pfx recursive fuel st).1.requests.length =
          st.requests.length + fuel := by
  induction fuel generalizing st with
  | zero => simp [forEachObjectLoop]
  | succ n ih =>
    obtain ⟨p, hp, ht⟩ := hc st.env (walkRequest bucket pfx st.ct)
    rw [forEachObjectLoop]
    simp only [hp, ht, Bool.not_true, Bool.false_eq_true, if_false]
    have hw := walkContents_requests fn pfx recursive p.Contents
      { env := (c.ListObjectsV2 st.env (walkRequest bucket pfx st.ct)).2
        requests := st.requests ++ [walkRequest bucket pfx st.ct]
        visited := st.visited
        dirs := st.dirs
        ct := ToString p.NextContinuationToken }
    have ht2 := (walkContents_total fn hfn pfx recursive p.Contents
      { env := (c.ListObjectsV2 st.env (walkRequest bucket pfx st.ct)).2
        requests := st.requests ++ [walkRequest bucket pfx st.ct]
        visited := st.visited
        dirs := st.dirs
        ct := ToString p.NextContinuationToken }).1
    simp only [ht2]
    obtain ⟨h1, h2⟩ := ih (walkContents fn pfx recursive p.Contents
      { env := (c.ListObjectsV2 st.env (walkRequest bucket pfx st.ct)).2
        requests := st.requests ++ [walkRequest bucket pfx st.ct]
        visited := st.visited
        dirs := st.dirs
        ct := ToString p.NextContinuationToken }).1
    refine ⟨h1, ?_⟩
    rw [h2, hw.1]
    simp; omega

/-! ## More on first-seen order -/

theorem firstSeen_nodup (xs : List String) : (firstSeen xs).Nodup := by
  induction xs with
  | nil => simp [firstSeen]
  | cons x xs ih =>
    rw [firstSeen, List.nodup_cons]
    exact ⟨by simp [List.mem_filter], ih.filter _⟩

/-! ## Buffered listing -/

/-- C1. For truncated pages `init` followed by a page `last` that is not
truncated, `listObjects` in buffered mode returns, in flat mode, one directory
record per distinct common prefix in first-seen order across pages, followed by
one object record per Contents entry in page order then in-page order; in
recursive mode only those object records. -/
theorem listObjects_buffered_result {τ : Type} (bucket pfx : String) (recursive : Bool)
    (init : List ListObjectsV2Output) (last : ListObjectsV2Output)
    (rest : List (Except Error ListObjectsV2Output)) (user : τ) (fuel : Nat)
    (hfuel : init.length < fuel)
    (hinit : ∀ p ∈ init, p.IsTruncated = true) (hlast : last.IsTruncated = false) :
    (listObjects fuel (scripted τ) ⟨init.map Except.ok ++ Except.ok last :: rest, user⟩
        bucket pfx recursive false).result =
      some (.ok
        ((if recursive then []
          else (firstSeen ((init ++ [last]).flatMap pagePrefixes)).map dirRecord)
         ++ ((init ++ [last]).flatMap (fun p => p.Contents)).map objectRecord)) := by
  rw [listObjects_scripted_ok bucket pfx recursive false init last rest user fuel hfuel hinit hlast]
  simp [bufferedOutput]

theorem listObjects_buffered_result_witness :
    (listObjects 2 (scripted Unit)
        ⟨[groupedPage].map Except.ok ++ Except.ok scenarioPage2 :: [], ()⟩
        "bucket" "" false false).result =
      some (.ok
        ((if false then []
          else (firstSeen (([groupedPage] ++ [scenarioPage2]).flatMap pagePrefixes)).map dirRecord)
         ++ (([groupedPage] ++ [scenarioPage2]).flatMap (fun p => p.Contents)).map objectRecord)) :=
  listObjects_buffered_result "bucket" "" false [groupedPage] scenarioPage2 [] () 2
    (by decide) (by decide) (by decide)

theorem dirRecord_dir (d : String) : (dirRecord d).Dir = true := rfl

theorem objectRecord_dir (o : Object) : (objectRecord o).Dir = false := rfl

theorem dirsNeverObjects_bufferedOutput (ps : List ListObjectsV2Output) :
    dirsNeverObjects (bufferedOutput false ps) ↔ pagesSeparated ps := by
  simp only [dirsNeverObjects, pagesSeparated, bufferedOutput, Bool.false_eq_true, if_false,
    List.mem_append, List.mem_map, mem_firstSeen]
  constructor
  · intro h d hd k hk
    obtain ⟨p, hp, hkp⟩ := List.mem_flatMap.1 hk
    obtain ⟨o, ho, rfl⟩ := List.mem_map.1 hkp
    exact h (dirRecord d) (Or.inl ⟨d, hd, rfl⟩) rfl (objectRecord o)
      (Or.inr ⟨o, List.mem_flatMap.2 ⟨p, hp, ho⟩, rfl⟩) rfl
  · intro h d hd hdir o ho hobj
    rcases hd with ⟨x, hx, rfl⟩ | ⟨x, _, rfl⟩
    · rcases ho with ⟨y, _, rfl⟩ | ⟨y, hy, rfl⟩
      · simp [dirRecord] at hobj
      · obtain ⟨p, hp, hyp⟩ := List.mem_flatMap.1 hy
        exact h x hx (ToString y.Key)
          (List.mem_flatMap.2 ⟨p, hp, List.mem_map.2 ⟨y, hyp, rfl⟩⟩)
    · simp [objectRecord] at hdir

/-- C2, counterexample. For the scenario pages of the specification the
buffered flat-mode output is not the directories `a/`, `b/` followed by the
single object `c`: the objects `a/x`, `a/y` and `b/z` are emitted as well, each
beneath an emitted directory. -/
theorem listObjects_scenario_objects_beneath_dirs :
    (listObjects 2 (scripted Unit) ⟨[.ok scenarioPage1, .ok scenarioPage2], ()⟩
        "bucket" "" false false).result =
      some (.ok [dirRecord "a/", dirRecord "b/", objectRecord (sampleObject "a/x"),
        objectRecord (sampleObject "a/y"), objectRecord (sampleObject "b/z"),
        objectRecord (sampleObject "c")])
    ∧ (listObjects 2 (scripted Unit) ⟨[.ok scenarioPage1, .ok scenarioPage2], ()⟩
        "bucket" "" false false).result ≠
      some (.ok [dirRecord "a/", dirRecord "b/", objectRecord (sampleObject "c")])
    ∧ ¬ dirsNeverObjects [dirRecord "a/", dirRecord "b/", objectRecord (sampleObject "a/x"),
        objectRecord (sampleObject "a/y"), objectRecord (sampleObject "b/z"),
        objectRecord (sampleObject "c")] := by
  refine ⟨by decide, by decide, ?_⟩
  intro h
  have := h (dirRecord "a/") (by simp) rfl (objectRecord (sampleObject "a/x")) (by simp) rfl
  revert this
  decide

/-- C2, amended. A buffered flat-mode listing returns the directory records
followed by an object record for every Contents entry of every page, unfiltered;
in that output no object record lies beneath a directory record exactly when no
Contents key of the pages lies beneath one of their common prefixes. -/
theorem listObjects_dirs_never_objects_iff {τ : Type} (bucket pfx : String)
    (init : List ListObjectsV2Output) (last : ListObjectsV2Output)
    (rest : List (Except Error ListObjectsV2Output)) (user : τ) (fuel : Nat)
    (hfuel : init.length < fuel)
    (hinit : ∀ p ∈ init, p.IsTruncated = true) (hlast : last.IsTruncated = false) :
    ∃ out, (listObjects fuel (scripted τ) ⟨init.map Except.ok ++ Except.ok last :: rest, user⟩
        bucket pfx false false).result = some (.ok out)
      ∧ (∀ p ∈ init ++ [last], ∀ o ∈ p.Contents, objectRecord o ∈ out)
      ∧ (dirsNeverObjects out ↔ pagesSeparated (init ++ [last])) := by
  refine ⟨bufferedOutput false (init ++ [last]), ?_, ?_, dirsNeverObjects_bufferedOutput _⟩
  · rw [listObjects_scripted_ok bucket pfx false false init last rest user fuel hfuel hinit hlast]
    simp
  · intro p hp o ho
    simp only [bufferedOutput, List.mem_append, List.mem_map]
    exact Or.inr ⟨o, List.mem_flatMap.2 ⟨p, hp, ho⟩, rfl⟩

theorem listObjects_dirs_never_objects_iff_witness :
    ∃ out, (listObjects 2 (scripted Unit)
        ⟨[groupedPage].map Except.ok ++ Except.ok scenarioPage2 :: [], ()⟩
        "bucket" "" false false).result = some (.ok out)
      ∧ (∀ p ∈ [groupedPage] ++ [scenarioPage2], ∀ o ∈ p.Contents, objectRecord o ∈ out)
      ∧ (dirsNeverObjects out ↔ pagesSeparated ([groupedPage] ++ [scenarioPage2])) :=
  listObjects_dirs_never_objects_iff "bucket" "" [groupedPage] scenarioPage2 [] () 2
    (by decide) (by decide) (by decide)

/-! ## Streaming listing -/

/-- C3. In streaming mode `listObjects` writes its lines in page order: for each
page in turn, first (flat mode only) the common prefixes of that page not seen
on an earlier page or earlier on this page, then every Contents key of the page
in order; nothing is returned in the record collection. -/
theorem listObjects_stream_page_order {τ : Type} (bucket pfx : String) (recursive : Bool)
    (init : List ListObjectsV2Output) (last : ListObjectsV2Output)
    (rest : List (Except Error ListObjectsV2Output)) (user : τ) (fuel : Nat)
    (hfuel : init.length < fuel)
    (hinit : ∀ p ∈ init, p.IsTruncated = true) (hlast : last.IsTruncated = false) :
    (listObjects fuel (scripted τ) ⟨init.map Except.ok ++ Except.ok last :: rest, user⟩
        bucket pfx recursive true).stdout = streamLinesFrom recursive [] (init ++ [last])
      ∧ (listObjects fuel (scripted τ) ⟨init.map Except.ok ++ Except.ok last :: rest, user⟩
        bucket pfx recursive true).result = some (.ok []) := by
  rw [listObjects_scripted_ok bucket pfx recursive true init last rest user fuel hfuel hinit hlast]
  simp [streamLines]

theorem listObjects_stream_page_order_witness :
    (listObjects 2 (scripted Unit)
        ⟨[scenarioPage1].map Except.ok ++ Except.ok scenarioPage2 :: [], ()⟩
        "bucket" "" false true).stdout = streamLinesFrom false [] ([scenarioPage1] ++ [scenarioPage2])
      ∧ (listObjects 2 (scripted Unit)
        ⟨[scenarioPage1].map Except.ok ++ Except.ok scenarioPage2 :: [], ()⟩
        "bucket" "" false true).result = some (.ok []) :=
  listObjects_stream_page_order "bucket" "" false [scenarioPage1] scenarioPage2 [] () 2
    (by decide) (by decide) (by decide)

/-! ## Pagination -/

theorem forEachObject_scripted {τ : Type} (f : τ → Object → Option Error × τ)
    (hf : ∀ u o, (f u o).1 = none) (bucket pfx : String) (recursive : Bool)
    (init : List ListObjectsV2Output) (last : Except Error ListObjectsV2Output)
    (rest : List (Except Error ListObjectsV2Output)) (user : τ) (fuel : Nat)
    (hfuel : init.length < fuel)
    (hinit : ∀ p ∈ init, p.IsTruncated = true) (hlast : isLast last = true) :
    (forEachObject fuel (scripted τ) ⟨init.map Except.ok ++ last :: rest, user⟩
        bucket pfx recursive (onUser f)).env.answers = rest
      ∧ (forEachObject fuel (scripted τ) ⟨init.map Except.ok ++ last :: rest, user⟩
        bucket pfx recursive (onUser f)).requests =
          ("" :: init.map nextToken).map (walkRequest bucket (if pfx = "/" then "" else pfx))
      ∧ (forEachObject fuel (scripted τ) ⟨init.map Except.ok ++ last :: rest, user⟩
        bucket pfx recursive (onUser f)).visited =
          ((init ++ answerPages last).flatMap (fun p => p.Contents)).filter
            (reachesCallback (if pfx = "/" then "" else pfx) recursive)
      ∧ (forEachObject fuel (scripted τ) ⟨init.map Except.ok ++ last :: rest, user⟩
        bucket pfx recursive (onUser f)).result = answerResult last := by
  have h := forEachObjectLoop_scripted f hf bucket (if pfx = "/" then "" else pfx) recursive
    init last rest fuel hfuel hinit hlast
    ({ env := ⟨init.map Except.ok ++ last :: rest, user⟩ } : WalkState (Script τ)) rfl
  simpa [forEachObject] using h

/-- C4. A traversal answered by truncated pages `init`, then by a page `last`
that is not truncated, then possibly by more (`rest`), sends one request per
page of `init` and one for `last`, returns, and leaves `rest` unasked, whatever
the cursors of the pages are; this holds for `listObjects` and, with a callback
that never fails, for `forEachObject`. -/
theorem traversal_stops_at_first_untruncated {τ : Type} (f : τ → Object → Option Error × τ)
    (hf : ∀ u o, (f u o).1 = none) (bucket pfx : String) (recursive stream : Bool)
    (init : List ListObjectsV2Output) (last : ListObjectsV2Output)
    (rest : List (Except Error ListObjectsV2Output)) (user : τ) (fuel : Nat)
    (hfuel : init.length < fuel)
    (hinit : ∀ p ∈ init, p.IsTruncated = true) (hlast : last.IsTruncated = false) :
    ((listObjects fuel (scripted τ) ⟨init.map Except.ok ++ Except.ok last :: rest, user⟩
        bucket pfx recursive stream).requests.length = init.length + 1
      ∧ (listObjects fuel (scripted τ) ⟨init.map Except.ok ++ Except.ok last :: rest, user⟩
        bucket pfx recursive stream).env.answers = rest
      ∧ ∃ out, (listObjects fuel (scripted τ) ⟨init.map Except.ok ++ Except.ok last :: rest, user⟩
        bucket pfx recursive stream).result = some (.ok out))
    ∧ ((forEachObject fuel (scripted τ) ⟨init.map Except.ok ++ Except.ok last :: rest, user⟩
        bucket pfx recursive (onUser f)).requests.length = init.length + 1
      ∧ (forEachObject fuel (scripted τ) ⟨init.map Except.ok ++ Except.ok last :: rest, user⟩
        bucket pfx recursive (onUser f)).env.answers = rest
      ∧ (forEachObject fuel (scripted τ) ⟨init.map Except.ok ++ Except.ok last :: rest, user⟩
        bucket pfx recursive (onUser f)).result = some none) := by
  constructor
  · rw [listObjects_scripted_ok bucket pfx recursive stream init last rest user fuel hfuel hinit
      hlast]
    simp
  · obtain ⟨h1, h2, _, h4⟩ := forEachObject_scripted f hf bucket pfx recursive init (.ok last)
      rest user fuel hfuel hinit (by simp [isLast, hlast])
    exact ⟨by rw [h2]; simp, h1, h4⟩

theorem traversal_stops_at_first_untruncated_witness :
    ((listObjects 2 (scripted Nat)
        ⟨[cursorlessPage].map Except.ok ++ Except.ok finalPageWithCursor :: [.ok scenarioPage2], 0⟩
        "bucket" "" false false).requests.length = [cursorlessPage].length + 1
      ∧ (listObjects 2 (scripted Nat)
        ⟨[cursorlessPage].map Except.ok ++ Except.ok finalPageWithCursor :: [.ok scenarioPage2], 0⟩
        "bucket" "" false false).env.answers = [.ok scenarioPage2]
      ∧ ∃ out, (listObjects 2 (scripted Nat)
        ⟨[cursorlessPage].map Except.ok ++ Except.ok finalPageWithCursor :: [.ok scenarioPage2], 0⟩
        "bucket" "" false false).result = some (.ok out))
    ∧ ((forEachObject 2 (scripted Nat)
        ⟨[cursorlessPage].map Except.ok ++ Except.ok finalPageWithCursor :: [.ok scenarioPage2], 0⟩
        "bucket" "" false (onUser countingVisit)).requests.length = [cursorlessPage].length + 1
      ∧ (forEachObject 2 (scripted Nat)
        ⟨[cursorlessPage].map Except.ok ++ Except.ok finalPageWithCursor :: [.ok scenarioPage2], 0⟩
        "bucket" "" false (onUser countingVisit)).env.answers = [.ok scenarioPage2]
      ∧ (forEachObject 2 (scripted Nat)
        ⟨[cursorlessPage].map Except.ok ++ Except.ok finalPageWithCursor :: [.ok scenarioPage2], 0⟩
        "bucket" "" false (onUser countingVisit)).result = some none) :=
  traversal_stops_at_first_untruncated countingVisit (fun _ _ => rfl) "bucket" "" false false
    [cursorlessPage] finalPageWithCursor [.ok scenarioPage2] 0 2
    (by decide) (by decide) (by decide)

/-- C5, counterexample. After a truncated page that comes without a cursor the
traversal does not stop: answered by two such pages and a final page, both
`listObjects` and `forEachObject` send three requests, each with the same
(empty) continuation token; and after a page that returns the cursor `T1` that
was just sent, `listObjects` sends `T1` again. -/
theorem traversal_requests_again_on_unchanged_cursor :
    (listObjects 5 (scripted Nat)
        ⟨[.ok cursorlessPage, .ok cursorlessPage, .ok scenarioPage2], 0⟩
        "bucket" "" false false).requests.map (fun r => r.ContinuationToken) =
      [some "", some "", some ""]
    ∧ (forEachObject 5 (scripted Nat)
        ⟨[.ok cursorlessPage, .ok cursorlessPage, .ok scenarioPage2], 0⟩
        "bucket" "" false (onUser countingVisit)).requests.map (fun r => r.ContinuationToken) =
      [some "", some "", some ""]
    ∧ (listObjects 5 (scripted Nat)
        ⟨[.ok scenarioPage1, .ok scenarioPage1, .ok scenarioPage2], 0⟩
        "bucket" "" false false).requests.map (fun r => r.ContinuationToken) =
      [some "", some "T1", some "T1"] := by
  decide

/-- C5, amended. A page that reports `IsTruncated = true` is always followed by
another request, whatever its cursor: against a service that reports every page
truncated, `listObjects` and (with a callback that never fails) `forEachObject`
have, for every amount of fuel, sent that many requests and not returned. -/
theorem traversal_runs_on_while_truncated {σ : Type} (c : storageClient σ)
    (hc : ∀ s req, ∃ p, (c.ListObjectsV2 s req).1 = .ok p ∧ p.IsTruncated = true)
    (fn : σ → Object → Option Error × σ) (hfn : ∀ s o, (fn s o).1 = none)
    (s : σ) (bucket pfx : String) (recursive stream : Bool) (fuel : Nat) :
    ((listObjects fuel c s bucket pfx recursive stream).result = none
      ∧ (listObjects fuel c s bucket pfx recursive stream).requests.length = fuel)
    ∧ ((forEachObject fuel c s bucket pfx recursive fn).result = none
      ∧ (forEachObject fuel c s bucket pfx recursive fn).requests.length = fuel) := by
  constructor
  · obtain ⟨h1, h2⟩ := listObjectsLoop_truncated c hc bucket pfx recursive stream fuel
      { env := s }
    constructor
    · simp only [listObjects, h1]
    · simpa [listObjects] using h2
  · obtain ⟨h1, h2⟩ := forEachObjectLoop_truncated c hc fn hfn bucket
      (if pfx = "/" then "" else pfx) recursive fuel { env := s }
    exact ⟨by simpa [forEachObject] using h1, by simpa [forEachObject] using h2⟩

theorem traversal_runs_on_while_truncated_witness :
    ((listObjects 7 alwaysTruncated () "bucket" "" false false).result = none
      ∧ (listObjects 7 alwaysTruncated () "bucket" "" false false).requests.length = 7)
    ∧ ((forEachObject 7 alwaysTruncated () "bucket" "" false (fun s _ => (none, s))).result = none
      ∧ (forEachObject 7 alwaysTruncated () "bucket" "" false
          (fun s _ => (none, s))).requests.length = 7) :=
  traversal_runs_on_while_truncated alwaysTruncated (fun _ _ => ⟨_, rfl, rfl⟩)
    (fun s _ => (none, s)) (fun _ _ => rfl) () "bucket" "" false false 7

/-! ## Requests -/

/-- C6. In a traversal answered by truncated pages `init` and then by a last
answer, the requests are, in order, one per continuation token of the list
`""`, token of page 0, token of page 1, ...; each carries the bucket and the
prefix unchanged (for `forEachObject` the prefix `"/"` resolved to `""`), and
the delimiter `"/"` exactly for `listObjects` with `recursive = false`. -/
theorem traversal_requests_determined {τ : Type} (f : τ → Object → Option Error × τ)
    (hf : ∀ u o, (f u o).1 = none) (bucket pfx : String) (recursive stream : Bool)
    (init : List ListObjectsV2Output) (last : Except Error ListObjectsV2Output)
    (rest : List (Except Error ListObjectsV2Output)) (user : τ) (fuel : Nat)
    (hfuel : init.length < fuel)
    (hinit : ∀ p ∈ init, p.IsTruncated = true) (hlast : isLast last = true) :
    (listObjects fuel (scripted τ) ⟨init.map Except.ok ++ last :: rest, user⟩
        bucket pfx recursive stream).requests =
      ("" :: init.map (fun p => ToString p.NextContinuationToken)).map (fun ct =>
        { Bucket := some bucket, Prefix := some pfx, ContinuationToken := some ct,
          Delimiter := if recursive then none else some "/" })
    ∧ (forEachObject fuel (scripted τ) ⟨init.map Except.ok ++ last :: rest, user⟩
        bucket pfx recursive (onUser f)).requests =
      ("" :: init.map (fun p => ToString p.NextContinuationToken)).map (fun ct =>
        { Bucket := some bucket, Prefix := some (if pfx = "/" then "" else pfx),
          ContinuationToken := some ct, Delimiter := none }) := by
  constructor
  · have hreq : ∀ ct, listRequest bucket pfx recursive ct =
        { Bucket := some bucket, Prefix := some pfx, ContinuationToken := some ct,
          Delimiter := if recursive then none else some "/" } := by
      intro ct; cases recursive <;> rfl
    cases last with
    | error err =>
      rw [listObjects_scripted_error bucket pfx recursive stream init err rest user fuel hfuel
        hinit]
      simp [hreq, nextToken]
    | ok p =>
      rw [listObjects_scripted_ok bucket pfx recursive stream init p rest user fuel hfuel hinit
        (by simpa [isLast] using hlast)]
      simp [hreq, nextToken]
  · obtain ⟨_, h2, _, _⟩ := forEachObject_scripted f hf bucket pfx recursive init last
      rest user fuel hfuel hinit hlast
    rw [h2]
    simp [walkRequest, awsString, nextToken]

theorem traversal_requests_determined_witness :
    (listObjects 2 (scripted Nat)
        ⟨[scenarioPage1].map Except.ok ++ Except.ok scenarioPage2 :: [], 0⟩
        "bucket" "/" false false).requests =
      ("" :: [scenarioPage1].map (fun p => ToString p.NextContinuationToken)).map (fun ct =>
        { Bucket := some "bucket", Prefix := some "/", ContinuationToken := some ct,
          Delimiter := if false then none else some "/" })
    ∧ (forEachObject 2 (scripted Nat)
        ⟨[scenarioPage1].map Except.ok ++ Except.ok scenarioPage2 :: [], 0⟩
        "bucket" "/" false (onUser countingVisit)).requests =
      ("" :: [scenarioPage1].map (fun p => ToString p.NextContinuationToken)).map (fun ct =>
        { Bucket := some "bucket", Prefix := some (if "/" = "/" then "" else "/"),
          ContinuationToken := some ct, Delimiter := none }) :=
  traversal_requests_determined countingVisit (fun _ _ => rfl) "bucket" "/" false false
    [scenarioPage1] (.ok scenarioPage2) [] 0 2 (by decide) (by decide) (by decide)

/-! ## Failing List calls -/

/-- C7. When the List call for page `k` fails (after the `k` truncated pages
`init`), `listObjects` returns the error and no record collection, has sent
`k + 1` requests and leaves every later answer unasked, and in streaming mode
has written exactly the lines of the pages before `k`; `forEachObject` (with a
callback that never fails) likewise returns the error after `k + 1` requests. -/
theorem traversal_aborts_on_list_error {τ : Type} (f : τ → Object → Option Error × τ)
    (hf : ∀ u o, (f u o).1 = none) (bucket pfx : String) (recursive stream : Bool)
    (init : List ListObjectsV2Output) (err : Error)
    (rest : List (Except Error ListObjectsV2Output)) (user : τ) (fuel : Nat)
    (hfuel : init.length < fuel)
    (hinit : ∀ p ∈ init, p.IsTruncated = true) :
    ((listObjects fuel (scripted τ) ⟨init.map Except.ok ++ Except.error err :: rest, user⟩
        bucket pfx recursive stream).result = some (.error err)
      ∧ (listObjects fuel (scripted τ) ⟨init.map Except.ok ++ Except.error err :: rest, user⟩
        bucket pfx recursive stream).requests.length = init.length + 1
      ∧ (listObjects fuel (scripted τ) ⟨init.map Except.ok ++ Except.error err :: rest, user⟩
        bucket pfx recursive stream).env.answers = rest
      ∧ (listObjects fuel (scripted τ) ⟨init.map Except.ok ++ Except.error err :: rest, user⟩
        bucket pfx recursive stream).stdout =
          if stream then streamLinesFrom recursive [] init else [])
    ∧ ((forEachObject fuel (scripted τ) ⟨init.map Except.ok ++ Except.error err :: rest, user⟩
        bucket pfx recursive (onUser f)).result = some (some err)
      ∧ (forEachObject fuel (scripted τ) ⟨init.map Except.ok ++ Except.error err :: rest, user⟩
        bucket pfx recursive (onUser f)).requests.length = init.length + 1
      ∧ (forEachObject fuel (scripted τ) ⟨init.map Except.ok ++ Except.error err :: rest, user⟩
        bucket pfx recursive (onUser f)).env.answers = rest) := by
  constructor
  · rw [listObjects_scripted_error bucket pfx recursive stream init err rest user fuel hfuel
      hinit]
    simp [streamLines]
  · obtain ⟨h1, h2, _, h4⟩ := forEachObject_scripted f hf bucket pfx recursive init (.error err)
      rest user fuel hfuel hinit (by simp [isLast])
    exact ⟨h4, by rw [h2]; simp, h1⟩

theorem traversal_aborts_on_list_error_witness :
    ((listObjects 9 (scripted Nat)
        ⟨[scenarioPage1].map Except.ok ++ Except.error (.raw "timeout") :: [.ok scenarioPage2], 0⟩
        "bucket" "" false true).result = some (.error (.raw "timeout"))
      ∧ (listObjects 9 (scripted Nat)
        ⟨[scenarioPage1].map Except.ok ++ Except.error (.raw "timeout") :: [.ok scenarioPage2], 0⟩
        "bucket" "" false true).requests.length = [scenarioPage1].length + 1
      ∧ (listObjects 9 (scripted Nat)
        ⟨[scenarioPage1].map Except.ok ++ Except.error (.raw "timeout") :: [.ok scenarioPage2], 0⟩
        "bucket" "" false true).env.answers = [.ok scenarioPage2]
      ∧ (listObjects 9 (scripted Nat)
        ⟨[scenarioPage1].map Except.ok ++ Except.error (.raw "timeout") :: [.ok scenarioPage2], 0⟩
        "bucket" "" false true).stdout =
          if true then streamLinesFrom false [] [scenarioPage1] else [])
    ∧ ((forEachObject 9 (scripted Nat)
        ⟨[scenarioPage1].map Except.ok ++ Except.error (.raw "timeout") :: [.ok scenarioPage2], 0⟩
        "bucket" "" false (onUser countingVisit)).result = some (some (.raw "timeout"))
      ∧ (forEachObject 9 (scripted Nat)
        ⟨[scenarioPage1].map Except.ok ++ Except.error (.raw "timeout") :: [.ok scenarioPage2], 0⟩
        "bucket" "" false (onUser countingVisit)).requests.length = [scenarioPage1].length + 1
      ∧ (forEachObject 9 (scripted Nat)
        ⟨[scenarioPage1].map Except.ok ++ Except.error (.raw "timeout") :: [.ok scenarioPage2], 0⟩
        "bucket" "" false (onUser countingVisit)).env.answers = [.ok scenarioPage2]) :=
  traversal_aborts_on_list_error countingVisit (fun _ _ => rfl) "bucket" "" false true
    [scenarioPage1] (.raw "timeout") [.ok scenarioPage2] 0 9 (by decide) (by decide)

/-- C8, counterexample. The error returned after a failed List call carries
neither cursor nor bucket: a listing of bucket `b1` failing on its first call
and a listing of bucket `b2` failing after the page with cursor `T1` return the
very same value, the error of the service. -/
theorem list_error_carries_no_cursor :
    (listObjects 5 (scripted Unit) ⟨[.error (.raw "timeout")], ()⟩
        "b1" "" false false).result = some (.error (.raw "timeout"))
    ∧ (listObjects 5 (scripted Unit) ⟨[.ok scenarioPage1, .error (.raw "timeout")], ()⟩
        "b2" "x/" false false).result = some (.error (.raw "timeout"))
    ∧ ((listObjects 5 (scripted Unit) ⟨[.error (.raw "timeout")], ()⟩
        "b1" "" false false).requests.map (fun r => r.ContinuationToken)) = [some ""]
    ∧ ((listObjects 5 (scripted Unit) ⟨[.ok scenarioPage1, .error (.raw "timeout")], ()⟩
        "b2" "x/" false false).requests.map (fun r => r.ContinuationToken)) = [some "", some "T1"]
    ∧ (forEachObject 5 (scripted Nat) ⟨[.error (.raw "timeout")], 0⟩
        "b1" "" false (onUser countingVisit)).result = some (some (.raw "timeout"))
    ∧ (forEachObject 5 (scripted Nat) ⟨[.ok scenarioPage1, .error (.raw "timeout")], 0⟩
        "b2" "x/" false (onUser countingVisit)).result = some (some (.raw "timeout")) := by
  decide

/-- C8, amended. When a List call fails, the traversal returns the error of the
service itself, unchanged and unwrapped, whatever the bucket, the prefix and the
pages consumed before. -/
theorem list_error_returned_unchanged {τ : Type} (f : τ → Object → Option Error × τ)
    (hf : ∀ u o, (f u o).1 = none) (bucket pfx : String) (recursive stream : Bool)
    (init : List ListObjectsV2Output) (err : Error)
    (rest : List (Except Error ListObjectsV2Output)) (user : τ) (fuel : Nat)
    (hfuel : init.length < fuel)
    (hinit : ∀ p ∈ init, p.IsTruncated = true) :
    (listObjects fuel (scripted τ) ⟨init.map Except.ok ++ Except.error err :: rest, user⟩
        bucket pfx recursive stream).result = some (.error err)
    ∧ (forEachObject fuel (scripted τ) ⟨init.map Except.ok ++ Except.error err :: rest, user⟩
        bucket pfx recursive (onUser f)).result = some (some err) := by
  constructor
  · rw [listObjects_scripted_error bucket pfx recursive stream init err rest user fuel hfuel
      hinit]
  · exact (forEachObject_scripted f hf bucket pfx recursive init (.error err)
      rest user fuel hfuel hinit (by simp [isLast])).2.2.2

theorem list_error_returned_unchanged_witness :
    (listObjects 3 (scripted Nat)
        ⟨[scenarioPage1].map Except.ok ++ Except.error (.raw "timeout") :: [], 0⟩
        "bucket" "a/" true false).result = some (.error (.raw "timeout"))
    ∧ (forEachObject 3 (scripted Nat)
        ⟨[scenarioPage1].map Except.ok ++ Except.error (.raw "timeout") :: [], 0⟩
        "bucket" "a/" true (onUser countingVisit)).result = some (some (.raw "timeout")) :=
  list_error_returned_unchanged countingVisit (fun _ _ => rfl) "bucket" "a/" true false
    [scenarioPage1] (.raw "timeout") [] 0 3 (by decide) (by decide)

/-! ## The argument of the `list` command -/

theorem splitChars_two (sep : Char) (s : List Char) :
    splitChars sep 2 s =
      match s.dropWhile (fun ch => ch != sep) with
      | [] => [s.takeWhile (fun ch => ch != sep)]
      | _ :: rest => [s.takeWhile (fun ch => ch != sep), rest] := by
  show (match s.span (fun ch => ch != sep) with
      | (a, []) => [a]
      | (a, _ :: rest) => a :: splitChars sep 1 rest) = _
  rw [List.span_eq_take_drop]
  cases s.dropWhile (fun ch => ch != sep) <;> simp [splitChars]

theorem dropWhile_ne_eq_nil_iff (sep : Char) (s : List Char) :
    s.dropWhile (fun ch => ch != sep) = [] ↔ sep ∉ s := by
  rw [List.dropWhile_eq_nil_iff]
  constructor
  · intro h hmem
    simpa using h sep hmem
  · intro h x hx
    have : x ≠ sep := fun e => h (e ▸ hx)
    simpa using this

theorem not_mem_takeWhile_ne (sep : Char) (s : List Char) :
    sep ∉ s.takeWhile (fun ch => ch != sep) := by
  intro h
  simpa using List.mem_takeWhile_imp h

/-- C9. The `list` command splits its argument on the first slash only: the
bucket never contains a slash; when the argument has no slash the bucket is the
whole argument and the prefix is empty; otherwise bucket, a slash and the prefix
make up the argument again. -/
theorem splitBucketPrefix_first_slash (arg : String) :
    '/' ∉ (splitBucketPrefix arg).1.data
    ∧ (if '/' ∈ arg.data then
        (splitBucketPrefix arg).1 ++ "/" ++ (splitBucketPrefix arg).2 = arg
      else splitBucketPrefix arg = (arg, "")) := by
  have hsplit := splitChars_two '/' arg.data
  have hcat := List.takeWhile_append_dropWhile (fun ch => ch != '/') arg.data
  have hnil := dropWhile_ne_eq_nil_iff '/' arg.data
  have hhead := List.head_dropWhile_not (fun ch => ch != '/') arg.data
  cases hd : arg.data.dropWhile (fun ch => ch != '/') with
  | nil =>
    rw [hd] at hsplit hcat
    have hno : '/' ∉ arg.data := hnil.1 hd
    have htake : arg.data.takeWhile (fun ch => ch != '/') = arg.data := by simpa using hcat
    have hval : splitBucketPrefix arg = (arg, "") := by
      simp [splitBucketPrefix, SplitN, hsplit, htake]
    rw [hval, if_neg hno]
    exact ⟨hno, rfl⟩
  | cons ch rest =>
    rw [hd] at hsplit hcat
    have hch : ch = '/' := by
      have := hhead (by rw [hd]; simp)
      simpa [hd] using this
    subst hch
    have hyes : '/' ∈ arg.data := by
      rw [← hcat]; simp
    have hval : splitBucketPrefix arg =
        (String.mk (arg.data.takeWhile (fun ch => ch != '/')), String.mk rest) := by
      simp [splitBucketPrefix, SplitN, hsplit]
    rw [hval, if_pos hyes]
    refine ⟨not_mem_takeWhile_ne '/' arg.data, ?_⟩
    apply String.ext
    simp only [String.data_append]
    conv_rhs => rw [← hcat]
    simp

/-! ## The root prefix -/

theorem forEachObject_requests_shape {σ : Type} (c : storageClient σ)
    (fn : σ → Object → Option Error × σ) (bucket pfx : String) (recursive : Bool)
    (fuel : Nat) (s : σ) :
    ∀ req ∈ (forEachObject fuel c s bucket pfx recursive fn).requests,
      req.Bucket = some bucket ∧ req.Prefix = some (if pfx = "/" then "" else pfx)
        ∧ req.Delimiter = none := by
  obtain ⟨cts, h⟩ := forEachObjectLoop_requests c fn bucket (if pfx = "/" then "" else pfx)
    recursive fuel { env := s }
  intro req hreq
  simp only [forEachObject] at hreq
  rw [h] at hreq
  simp only [List.nil_append, List.mem_map] at hreq
  obtain ⟨ct, _, rfl⟩ := hreq
  exact ⟨rfl, rfl, rfl⟩

/-- C10. Whatever the service, the bucket, the recursive flag and the callback,
`forEachObject` called with prefix `"/"` does exactly what it does with prefix
`""`: same requests, same objects handed to the callback in the same order,
same return value, same environment left behind; and every request it sends
carries the empty prefix. -/
theorem forEachObject_slash_is_root {σ : Type} (c : storageClient σ)
    (fn : σ → Object → Option Error × σ) (bucket : String) (recursive : Bool)
    (fuel : Nat) (s : σ) :
    forEachObject fuel c s bucket "/" recursive fn = forEachObject fuel c s bucket "" recursive fn
    ∧ ∀ req ∈ (forEachObject fuel c s bucket "/" recursive fn).requests,
        req.Prefix = some "" := by
  constructor
  · simp [forEachObject]
  · intro req hreq
    have h := (forEachObject_requests_shape c fn bucket "/" recursive fuel s req hreq).2.1
    simpa using h


/-! ## The root prefix in `listObjects` -/

/-- C11. Evaluation of `listObjects` at the prefix `"/"`: against a service
holding the keys `readme` and `/odd`, the request carries the prefix `"/"`, not
the empty prefix, and the result is the object `/odd` alone, whereas the prefix
`""` yields both objects. -/
theorem listObjects_slash_sent_as_given :
    (listObjects 3 (prefixService ["readme", "/odd"]) () "bucket" "/" true false).requests.map
        (fun r => r.Prefix) = [some "/"]
    ∧ (listObjects 3 (prefixService ["readme", "/odd"]) () "bucket" "/" true false).result =
        some (.ok [objectRecord (sampleObject "/odd")])
    ∧ (listObjects 3 (prefixService ["readme", "/odd"]) () "bucket" "" true false).result =
        some (.ok [objectRecord (sampleObject "readme"), objectRecord (sampleObject "/odd")]) := by
  decide

/-! ## Which objects `forEachObject` hands to the callback -/

theorem SplitN_length_gt_one (s : String) :
    1 < (SplitN s '/' 2).length ↔ '/' ∈ s.data := by
  have hnil := dropWhile_ne_eq_nil_iff '/' s.data
  simp only [SplitN, List.length_map, splitChars_two]
  cases hd : s.data.dropWhile (fun ch => ch != '/') with
  | nil =>
    have : '/' ∉ s.data := hnil.1 hd
    simp [this]
  | cons ch rest =>
    have : '/' ∈ s.data := by
      by_contra h
      rw [hnil.2 h] at hd
      cases hd
    simp [this]

theorem TrimPrefix_self (s : String) : TrimPrefix s s = "" := by
  have h : HasPrefix s s = true := by simp [HasPrefix]
  simp only [TrimPrefix, h, if_true, List.drop_length]

/-- The test of `forEachObject`, spelled out: in recursive mode every object
reaches the callback; otherwise those whose key has no slash after the prefix
is stripped and, unless the prefix ends in a slash, equals the prefix. -/
theorem reachesCallback_eq (pfx : String) (recursive : Bool) (o : Object) :
    reachesCallback pfx recursive o =
      (recursive || (!decide ('/' ∈ (TrimPrefix (ToString o.Key) pfx).data)
        && (HasSuffix pfx "/" || ToString o.Key == pfx))) := by
  have h := SplitN_length_gt_one (TrimPrefix (ToString o.Key) pfx)
  simp only [reachesCallback, gt_iff_lt]
  by_cases hs : '/' ∈ (TrimPrefix (ToString o.Key) pfx).data
  · have h1 := h.2 hs
    cases recursive <;> simp [h1, hs]
  · have h1 : ¬ 1 < (SplitN (TrimPrefix (ToString o.Key) pfx) '/' 2).length := fun x => hs (h.1 x)
    cases recursive <;> cases HasSuffix pfx "/" <;> simp [h1, hs, bne]

theorem reachesCallback_recursive (pfx : String) (o : Object) :
    reachesCallback pfx true o = true := by
  simp [reachesCallback_eq]

theorem reachesCallback_exact (pfx : String) (o : Object)
    (hpfx : HasSuffix pfx "/" = false) :
    reachesCallback pfx false o = (ToString o.Key == pfx) := by
  rw [reachesCallback_eq, hpfx]
  by_cases hk : ToString o.Key = pfx
  · simp [hk, TrimPrefix_self]
  · simp [hk]

theorem reachesCallback_amended (pfx : String) (recursive : Bool) (o : Object) :
    reachesCallback pfx recursive o =
      (recursive
        || (!decide ('/' ∈ (TrimPrefix (ToString o.Key) pfx).data) && HasSuffix pfx "/")
        || ToString o.Key == pfx) := by
  rw [reachesCallback_eq]
  by_cases hk : ToString o.Key = pfx
  · have h0 : '/' ∉ ("" : String).data := by decide
    simp [hk, TrimPrefix_self, h0]
  · have hb : (ToString o.Key == pfx) = false := by simpa using hk
    rw [hb]
    cases recursive <;> simp

/-- C12. In a non-recursive walk whose resolved prefix does not end in a slash,
with a callback that never fails, the callback is handed exactly the listed
entries whose key equals the prefix, in the order of the service; when no listed
key equals the prefix it is never called; in either case the walk returns no
error. -/
theorem forEachObject_exact_match {τ : Type} (f : τ → Object → Option Error × τ)
    (hf : ∀ u o, (f u o).1 = none) (bucket pfx : String)
    (init : List ListObjectsV2Output) (last : ListObjectsV2Output)
    (rest : List (Except Error ListObjectsV2Output)) (user : τ) (fuel : Nat)
    (hfuel : init.length < fuel)
    (hinit : ∀ p ∈ init, p.IsTruncated = true) (hlast : last.IsTruncated = false)
    (hpfx : HasSuffix (if pfx = "/" then "" else pfx) "/" = false) :
    (forEachObject fuel (scripted τ) ⟨init.map Except.ok ++ Except.ok last :: rest, user⟩
        bucket pfx false (onUser f)).visited =
      ((init ++ [last]).flatMap (fun p => p.Contents)).filter
        (fun o => ToString o.Key == (if pfx = "/" then "" else pfx))
    ∧ ((∀ o ∈ (init ++ [last]).flatMap (fun p => p.Contents),
          ToString o.Key ≠ (if pfx = "/" then "" else pfx)) →
        (forEachObject fuel (scripted τ) ⟨init.map Except.ok ++ Except.ok last :: rest, user⟩
          bucket pfx false (onUser f)).visited = [])
    ∧ (forEachObject fuel (scripted τ) ⟨init.map Except.ok ++ Except.ok last :: rest, user⟩
        bucket pfx false (onUser f)).result = some none := by
  obtain ⟨_, _, h3, h4⟩ := forEachObject_scripted f hf bucket pfx false init (.ok last)
    rest user fuel hfuel hinit (by simp [isLast, hlast])
  have hv : (forEachObject fuel (scripted τ)
      ⟨init.map Except.ok ++ Except.ok last :: rest, user⟩ bucket pfx false (onUser f)).visited =
      ((init ++ [last]).flatMap (fun p => p.Contents)).filter
        (fun o => ToString o.Key == (if pfx = "/" then "" else pfx)) := by
    rw [h3]
    simp only [answerPages]
    exact List.filter_congr (fun o _ => reachesCallback_exact _ o hpfx)
  refine ⟨hv, ?_, h4⟩
  intro hno
  rw [hv, List.filter_eq_nil_iff]
  intro o ho
  simpa using hno o ho

theorem forEachObject_exact_match_witness :
    (forEachObject 2 (scripted Nat)
        ⟨[scenarioPage1].map Except.ok ++ Except.ok scenarioPage2 :: [], 0⟩
        "bucket" "c" false (onUser countingVisit)).visited =
      (([scenarioPage1] ++ [scenarioPage2]).flatMap (fun p => p.Contents)).filter
        (fun o => ToString o.Key == (if "c" = "/" then "" else "c"))
    ∧ ((∀ o ∈ ([scenarioPage1] ++ [scenarioPage2]).flatMap (fun p => p.Contents),
          ToString o.Key ≠ (if "c" = "/" then "" else "c")) →
        (forEachObject 2 (scripted Nat)
          ⟨[scenarioPage1].map Except.ok ++ Except.ok scenarioPage2 :: [], 0⟩
          "bucket" "c" false (onUser countingVisit)).visited = [])
    ∧ (forEachObject 2 (scripted Nat)
        ⟨[scenarioPage1].map Except.ok ++ Except.ok scenarioPage2 :: [], 0⟩
        "bucket" "c" false (onUser countingVisit)).result = some none :=
  forEachObject_exact_match countingVisit (fun _ _ => rfl) "bucket" "c"
    [scenarioPage1] scenarioPage2 [] 0 2 (by decide) (by decide) (by decide) (by decide)

/-- Whatever the callback does, the loop over `res.Contents` hands it only
objects that pass the test of the loop body. -/
theorem walkContents_visited_mem {σ : Type} (fn : σ → Object → Option Error × σ) (pfx : String)
    (recursive : Bool) (os : List Object) (st : WalkState σ) :
    ∀ o ∈ (walkContents fn pfx recursive os st).1.visited,
      o ∈ st.visited ∨ reachesCallback pfx recursive o = true := by
  induction os generalizing st with
  | nil => intro o ho; exact Or.inl (by simpa [walkContents] using ho)
  | cons x os ih =>
    rw [walkContents]
    simp only
    split
    · split
      · exact ih _
      · exact ih _
    · rename_i h1
      split
      · exact ih _
      · rename_i h2
        have hr : reachesCallback pfx recursive x = true := by
          simp only [reachesCallback]
          simp only [Bool.not_eq_true] at h1 h2
          rw [h1, h2]; rfl
        have hstep : ∀ o ∈ st.visited ++ [x],
            o ∈ st.visited ∨ reachesCallback pfx recursive o = true := by
          intro o ho
          rcases List.mem_append.1 ho with h | h
          · exact Or.inl h
          · rw [List.mem_singleton.1 h]; exact Or.inr hr
        split
        · exact hstep
        · intro o ho
          rcases ih { st with env := (fn st.env x).2, visited := st.visited ++ [x] } o ho with h | h
          · exact hstep o h
          · exact Or.inr h

theorem forEachObjectLoop_visited_mem {σ : Type} (c : storageClient σ)
    (fn : σ → Object → Option Error × σ) (bucket pfx : String) (recursive : Bool)
    (fuel : Nat) (st : WalkState σ) :
    ∀ o ∈ (forEachObjectLoop c fn bucket pfx recursive fuel st).1.visited,
      o ∈ st.visited ∨ reachesCallback pfx recursive o = true := by
  induction fuel generalizing st with
  | zero => intro o ho; exact Or.inl (by simpa [forEachObjectLoop] using ho)
  | succ n ih =>
    rw [forEachObjectLoop]
    simp only
    split
    · intro o ho; exact Or.inl ho
    · rename_i res _
      have hw := walkContents_visited_mem fn pfx recursive res.Contents
        { env := (c.ListObjectsV2 st.env (walkRequest bucket pfx st.ct)).2
          requests := st.requests ++ [walkRequest bucket pfx st.ct]
          visited := st.visited
          dirs := st.dirs
          ct := ToString res.NextContinuationToken }
      split
      · exact hw
      · split
        · exact hw
        · intro o ho
          rcases ih _ o ho with h | h
          · exact hw o h
          · exact Or.inr h

/-- C13. Whatever the service and the callback, a non-recursive `forEachObject`
never hands the callback an entry whose key still contains a slash after the
resolved prefix has been stripped from its front. -/
theorem forEachObject_skips_deeper {σ : Type} (c : storageClient σ)
    (fn : σ → Object → Option Error × σ) (bucket pfx : String) (fuel : Nat) (s : σ) :
    ∀ o ∈ (forEachObject fuel c s bucket pfx false fn).visited,
      '/' ∉ (TrimPrefix (ToString o.Key) (if pfx = "/" then "" else pfx)).data := by
  intro o ho
  have h := forEachObjectLoop_visited_mem c fn bucket (if pfx = "/" then "" else pfx) false fuel
    { env := s } o (by simpa [forEachObject] using ho)
  rcases h with h | h
  · simp at h
  · rw [reachesCallback_eq] at h
    simp only [Bool.false_or, Bool.and_eq_true, Bool.not_eq_true', decide_eq_false_iff_not] at h
    exact h.1

/-- C14, counterexample. In a non-recursive walk with prefix `doc`, the listed
key `docs` has no further segment after the prefix, and in a walk of the root
the key `readme` has none either, yet neither is handed to the callback. -/
theorem forEachObject_no_segment_not_visited :
    '/' ∉ (TrimPrefix "docs" "doc").data
    ∧ (forEachObject 3 (prefixService ["docs"]) () "bucket" "doc" false
        (fun s _ => (none, s))).visited = []
    ∧ (forEachObject 3 (prefixService ["docs"]) () "bucket" "doc" false
        (fun s _ => (none, s))).result = some none
    ∧ '/' ∉ (TrimPrefix "readme" "").data
    ∧ (forEachObject 3 (prefixService ["readme"]) () "bucket" "" false
        (fun s _ => (none, s))).visited = [] := by
  decide

/-- C14, amended. In a walk with a callback that never fails, the callback is
handed exactly the listed entries for which the walk is recursive, or the key
has no further segment after the prefix and the prefix ends in a slash, or the
key equals the prefix; it gets them in the order of the service. -/
theorem forEachObject_visits_selected {τ : Type} (f : τ → Object → Option Error × τ)
    (hf : ∀ u o, (f u o).1 = none) (bucket pfx : String) (recursive : Bool)
    (init : List ListObjectsV2Output) (last : ListObjectsV2Output)
    (rest : List (Except Error ListObjectsV2Output)) (user : τ) (fuel : Nat)
    (hfuel : init.length < fuel)
    (hinit : ∀ p ∈ init, p.IsTruncated = true) (hlast : last.IsTruncated = false) :
    (forEachObject fuel (scripted τ) ⟨init.map Except.ok ++ Except.ok last :: rest, user⟩
        bucket pfx recursive (onUser f)).visited =
      ((init ++ [last]).flatMap (fun p => p.Contents)).filter (fun o =>
        recursive
          || (!decide ('/' ∈ (TrimPrefix (ToString o.Key) (if pfx = "/" then "" else pfx)).data)
              && HasSuffix (if pfx = "/" then "" else pfx) "/")
          || ToString o.Key == (if pfx = "/" then "" else pfx)) := by
  obtain ⟨_, _, h3, _⟩ := forEachObject_scripted f hf bucket pfx recursive init (.ok last)
    rest user fuel hfuel hinit (by simp [isLast, hlast])
  rw [h3]
  simp only [answerPages]
  exact List.filter_congr (fun o _ => reachesCallback_amended _ recursive o)

theorem forEachObject_visits_selected_witness :
    (forEachObject 2 (scripted Nat)
        ⟨[scenarioPage1].map Except.ok ++ Except.ok scenarioPage2 :: [], 0⟩
        "bucket" "a/" false (onUser countingVisit)).visited =
      (([scenarioPage1] ++ [scenarioPage2]).flatMap (fun p => p.Contents)).filter (fun o =>
        false
          || (!decide ('/' ∈ (TrimPrefix (ToString o.Key) (if "a/" = "/" then "" else "a/")).data)
              && HasSuffix (if "a/" = "/" then "" else "a/") "/")
          || ToString o.Key == (if "a/" = "/" then "" else "a/")) :=
  forEachObject_visits_selected countingVisit (fun _ _ => rfl) "bucket" "a/" false
    [scenarioPage1] scenarioPage2 [] 0 2 (by decide) (by decide) (by decide)

/-- C15. A recursive walk with a callback that never fails hands the callback
every Contents entry of every fetched page exactly once, in page order and then
in-page order, and returns no error. -/
theorem forEachObject_recursive_visits_all {τ : Type} (f : τ → Object → Option Error × τ)
    (hf : ∀ u o, (f u o).1 = none) (bucket pfx : String)
    (init : List ListObjectsV2Output) (last : ListObjectsV2Output)
    (rest : List (Except Error ListObjectsV2Output)) (user : τ) (fuel : Nat)
    (hfuel : init.length < fuel)
    (hinit : ∀ p ∈ init, p.IsTruncated = true) (hlast : last.IsTruncated = false) :
    (forEachObject fuel (scripted τ) ⟨init.map Except.ok ++ Except.ok last :: rest, user⟩
        bucket pfx true (onUser f)).visited = (init ++ [last]).flatMap (fun p => p.Contents)
    ∧ (forEachObject fuel (scripted τ) ⟨init.map Except.ok ++ Except.ok last :: rest, user⟩
        bucket pfx true (onUser f)).result = some none := by
  obtain ⟨_, _, h3, h4⟩ := forEachObject_scripted f hf bucket pfx true init (.ok last)
    rest user fuel hfuel hinit (by simp [isLast, hlast])
  refine ⟨?_, h4⟩
  rw [h3]
  simp only [answerPages]
  rw [List.filter_eq_self]
  intro o _
  exact reachesCallback_recursive _ o

theorem forEachObject_recursive_visits_all_witness :
    (forEachObject 2 (scripted Nat)
        ⟨[scenarioPage1].map Except.ok ++ Except.ok scenarioPage2 :: [], 0⟩
        "bucket" "" true (onUser countingVisit)).visited =
      ([scenarioPage1] ++ [scenarioPage2]).flatMap (fun p => p.Contents)
    ∧ (forEachObject 2 (scripted Nat)
        ⟨[scenarioPage1].map Except.ok ++ Except.ok scenarioPage2 :: [], 0⟩
        "bucket" "" true (onUser countingVisit)).result = some none :=
  forEachObject_recursive_visits_all countingVisit (fun _ _ => rfl) "bucket" ""
    [scenarioPage1] scenarioPage2 [] 0 2 (by decide) (by decide) (by decide)

theorem forEachObject_skips_deeper_witness :
    '/' ∉ (TrimPrefix (ToString (sampleObject "a/x").Key) (if "a/" = "/" then "" else "a/")).data :=
  forEachObject_skips_deeper (scripted Nat) (onUser countingVisit) "bucket" "a/" 2
    ⟨[.ok scenarioPage1, .ok scenarioPage2], 0⟩ (sampleObject "a/x") (by decide)

/-! ## A failing callback -/

theorem visitsOk_append {τ : Type} (f : τ → Object → Option Error × τ) (u : τ)
    (a b : List Object) :
    visitsOk f u (a ++ b) = (visitsOk f u a).bind (fun u1 => visitsOk f u1 b) := by
  induction a generalizing u with
  | nil => simp [visitsOk]
  | cons o a ih =>
    simp only [List.cons_append, visitsOk]
    cases (f u o).1 with
    | none => simp [ih]
    | some e => simp

/-- The loop over `res.Contents`, cut in two. -/
theorem walkContents_append {σ : Type} (fn : σ → Object → Option Error × σ) (pfx : String)
    (recursive : Bool) (a b : List Object) (st : WalkState σ) :
    walkContents fn pfx recursive (a ++ b) st =
      match (walkContents fn pfx recursive a st).2 with
      | some err => ((walkContents fn pfx recursive a st).1, some err)
      | none => walkContents fn pfx recursive b (walkContents fn pfx recursive a st).1 := by
  induction a generalizing st with
  | nil => simp [walkContents]
  | cons o a ih =>
    rw [List.cons_append, walkContents, walkContents]
    simp only
    split
    · split
      · exact ih _
      · exact ih _
    · split
      · exact ih _
      · split
        · rfl
        · exact ih _

/-- The loop over `res.Contents` when the callback succeeds on all the objects
it is handed. -/
theorem walkContents_visitsOk {τ : Type} (f : τ → Object → Option Error × τ) (pfx : String)
    (recursive : Bool) (os : List Object) (st : WalkState (Script τ)) (u1 : τ)
    (hok : visitsOk f st.env.user (os.filter (reachesCallback pfx recursive)) = some u1) :
    (walkContents (onUser f) pfx recursive os st).2 = none
      ∧ (walkContents (onUser f) pfx recursive os st).1.visited =
          st.visited ++ os.filter (reachesCallback pfx recursive)
      ∧ (walkContents (onUser f) pfx recursive os st).1.env.user = u1 := by
  induction os generalizing st with
  | nil =>
    simp only [List.filter_nil, visitsOk, Option.some.injEq] at hok
    simp [walkContents, hok]
  | cons o os ih =>
    rw [walkContents]
    simp only
    split
    · rename_i h1
      have hr : reachesCallback pfx recursive o = false := by
        simp only [reachesCallback, h1]; rfl
      rw [List.filter_cons_of_neg (by simp [hr])] at hok ⊢
      split
      · exact ih _ hok
      · exact ih { st with dirs := st.dirs ++
          [Base ((SplitN (TrimPrefix (ToString o.Key) pfx) '/' 2).headD "")] } hok
    · rename_i h1
      split
      · rename_i h2
        have hr : reachesCallback pfx recursive o = false := by
          simp only [reachesCallback, h2]; simp
        rw [List.filter_cons_of_neg (by simp [hr])] at hok ⊢
        exact ih _ hok
      · rename_i h2
        have hr : reachesCallback pfx recursive o = true := by
          simp only [reachesCallback]
          simp only [Bool.not_eq_true] at h1 h2
          rw [h1, h2]; rfl
        rw [List.filter_cons_of_pos hr] at hok ⊢
        rw [visitsOk] at hok
        have hnone : (onUser f st.env o).1 = none := by
          simp only [onUser]
          cases hfo : (f st.env.user o).1 with
          | none => rfl
          | some e => rw [hfo] at hok; cases hok
        have hok2 : visitsOk f (f st.env.user o).2 (os.filter (reachesCallback pfx recursive)) =
            some u1 := by
          simp only [onUser] at hnone
          rw [hnone] at hok
          exact hok
        rw [hnone]
        simp only
        obtain ⟨g1, g2, g3⟩ := ih
          { st with env := (onUser f st.env o).2, visited := st.visited ++ [o] } hok2
        exact ⟨g1, by rw [g2]; simp, g3⟩

/-- The loop over `res.Contents` when the callback fails on the first object. -/
theorem walkContents_fails {τ : Type} (f : τ → Object → Option Error × τ) (pfx : String)
    (recursive : Bool) (o : Object) (after : List Object) (st : WalkState (Script τ))
    (err : Error) (hreach : reachesCallback pfx recursive o = true)
    (hfail : (f st.env.user o).1 = some err) :
    walkContents (onUser f) pfx recursive (o :: after) st =
      ({ st with env := { st.env with user := (f st.env.user o).2 }
                 visited := st.visited ++ [o] }, some err) := by
  rw [walkContents]
  simp only
  simp only [reachesCallback, gt_iff_lt, Bool.and_eq_true, Bool.not_eq_true'] at hreach
  obtain ⟨h1, h2⟩ := hreach
  rw [h1, h2]
  simp [onUser, hfail]

/-- One turn of the loop of `forEachObject` on a truncated page whose objects
the callback accepts: the loop goes on from a state that is known field by field. -/
theorem forEachObjectLoop_turn {τ : Type} (f : τ → Object → Option Error × τ)
    (bucket pfx : String) (recursive : Bool) (p : ListObjectsV2Output)
    (tail : List (Except Error ListObjectsV2Output)) (n : Nat) (st : WalkState (Script τ))
    (u1 : τ) (hp : p.IsTruncated = true)
    (henv : st.env.answers = Except.ok p :: tail)
    (hok : visitsOk f st.env.user (p.Contents.filter (reachesCallback pfx recursive)) = some u1) :
    ∃ st1 : WalkState (Script τ),
      forEachObjectLoop (scripted τ) (onUser f) bucket pfx recursive (n + 1) st =
        forEachObjectLoop (scripted τ) (onUser f) bucket pfx recursive n st1
      ∧ st1.env.answers = tail ∧ st1.env.user = u1
      ∧ st1.requests = st.requests ++ [walkRequest bucket pfx st.ct]
      ∧ st1.ct = nextToken p
      ∧ st1.visited = st.visited ++ p.Contents.filter (reachesCallback pfx recursive) := by
  rw [forEachObjectLoop]
  simp only [scripted_answers _ _ _ _ henv]
  obtain ⟨h1, h2, h3⟩ := walkContents_frame f pfx recursive p.Contents
    { env := { st.env with answers := tail }
      requests := st.requests ++ [walkRequest bucket pfx st.ct]
      visited := st.visited
      dirs := st.dirs
      ct := ToString p.NextContinuationToken }
  obtain ⟨h4, h5, h6⟩ := walkContents_visitsOk f pfx recursive p.Contents
    { env := { st.env with answers := tail }
      requests := st.requests ++ [walkRequest bucket pfx st.ct]
      visited := st.visited
      dirs := st.dirs
      ct := ToString p.NextContinuationToken } u1 hok
  simp only [h4, hp, Bool.not_true, Bool.false_eq_true, if_false]
  exact ⟨_, rfl, h1, h6, h2, h3, h5⟩

/-- The loop of `forEachObject` answered by the truncated pages `init` and then
by a page on one of whose objects the callback fails for the first time. -/
theorem forEachObjectLoop_scripted_fails {τ : Type} (f : τ → Object → Option Error × τ)
    (bucket pfx : String) (recursive : Bool)
    (init : List ListObjectsV2Output) (page : ListObjectsV2Output)
    (rest : List (Except Error ListObjectsV2Output)) (fuel : Nat)
    (before after : List Object) (o : Object) (u1 : τ) (err : Error)
    (hfuel : init.length < fuel)
    (hinit : ∀ p ∈ init, p.IsTruncated = true)
    (hpage : page.Contents = before ++ o :: after)
    (hreach : reachesCallback pfx recursive o = true)
    (hfail : (f u1 o).1 = some err)
    (st : WalkState (Script τ))
    (henv : st.env.answers = init.map Except.ok ++ Except.ok page :: rest)
    (hok : visitsOk f st.env.user
      ((init.flatMap (fun p => p.Contents) ++ before).filter (reachesCallback pfx recursive)) =
        some u1) :
    (forEachObjectLoop (scripted τ) (onUser f) bucket pfx recursive fuel st).2 = some (some err)
      ∧ (forEachObjectLoop (scripted τ) (onUser f) bucket pfx recursive fuel st).1.visited =
          st.visited ++ (init.flatMap (fun p => p.Contents) ++ before).filter
            (reachesCallback pfx recursive) ++ [o]
      ∧ (forEachObjectLoop (scripted τ) (onUser f) bucket pfx recursive fuel st).1.requests =
          st.requests ++ (st.ct :: init.map nextToken).map (walkRequest bucket pfx)
      ∧ (forEachObjectLoop (scripted τ) (onUser f) bucket pfx recursive fuel st).1.env.answers =
          rest := by
  induction init generalizing st fuel with
  | nil =>
    obtain ⟨n, rfl⟩ : ∃ n, fuel = n + 1 := ⟨fuel - 1, by simp at hfuel; omega⟩
    simp only [List.map_nil, List.nil_append, List.flatMap_nil] at henv hok
    rw [forEachObjectLoop]
    simp only [scripted_answers _ _ _ _ henv, hpage]
    rw [walkContents_append]
    obtain ⟨h1, h2, h3⟩ := walkContents_frame f pfx recursive before
      { env := { st.env with answers := rest }
        requests := st.requests ++ [walkRequest bucket pfx st.ct]
        visited := st.visited
        dirs := st.dirs
        ct := ToString page.NextContinuationToken }
    obtain ⟨h4, h5, h6⟩ := walkContents_visitsOk f pfx recursive before
      { env := { st.env with answers := rest }
        requests := st.requests ++ [walkRequest bucket pfx st.ct]
        visited := st.visited
        dirs := st.dirs
        ct := ToString page.NextContinuationToken } u1 hok
    simp only [h4]
    rw [walkContents_fails f pfx recursive o after _ err hreach (by rw [h6]; exact hfail)]
    simp only [List.flatMap_nil, List.nil_append, List.map_nil, List.map_cons]
    exact ⟨trivial, by rw [h5], h2, h1⟩
  | cons p init ih =>
    obtain ⟨n, rfl⟩ : ∃ n, fuel = n + 1 := ⟨fuel - 1, by simp at hfuel; omega⟩
    have hp : p.IsTruncated = true := hinit p (List.mem_cons_self _ _)
    have hrest : ∀ q ∈ init, q.IsTruncated = true :=
      fun q hq => hinit q (List.mem_cons_of_mem _ hq)
    have hn : init.length < n := by simp at hfuel; omega
    simp only [List.map_cons, List.cons_append] at henv
    simp only [List.flatMap_cons, List.append_assoc, List.filter_append] at hok
    rw [visitsOk_append] at hok
    cases hu : visitsOk f st.env.user (p.Contents.filter (reachesCallback pfx recursive)) with
    | none => rw [hu] at hok; cases hok
    | some u0 =>
      rw [hu] at hok
      change _ = some u1 at hok
      obtain ⟨st1, hstep, e1, e2, e3, e4, e5⟩ := forEachObjectLoop_turn f bucket pfx recursive p
        (init.map Except.ok ++ Except.ok page :: rest) n st u0 hp henv hu
      rw [hstep]
      obtain ⟨g1, g2, g3, g4⟩ := ih n hn hrest st1 e1
        (by rw [e2]; simpa [List.filter_append] using hok)
      refine ⟨g1, ?_, ?_, g4⟩
      · rw [g2, e5]; simp [List.flatMap_cons, List.filter_append]
      · rw [g3, e3, e4]; simp

/-- The loop of `forEachObject` answered by the truncated pages `init` and then
by a last answer, with a callback that succeeds on every object it is handed. -/
theorem forEachObjectLoop_scripted_visits {τ : Type} (f : τ → Object → Option Error × τ)
    (bucket pfx : String) (recursive : Bool)
    (init : List ListObjectsV2Output) (last : Except Error ListObjectsV2Output)
    (rest : List (Except Error ListObjectsV2Output)) (fuel : Nat) (u1 : τ)
    (hfuel : init.length < fuel)
    (hinit : ∀ p ∈ init, p.IsTruncated = true) (hlast : isLast last = true)
    (st : WalkState (Script τ))
    (henv : st.env.answers = init.map Except.ok ++ last :: rest)
    (hok : visitsOk f st.env.user
      (((init ++ answerPages last).flatMap (fun p => p.Contents)).filter
        (reachesCallback pfx recursive)) = some u1) :
    (forEachObjectLoop (scripted τ) (onUser f) bucket pfx recursive fuel st).2 = answerResult last
      ∧ (forEachObjectLoop (scripted τ) (onUser f) bucket pfx recursive fuel st).1.visited =
          st.visited ++ ((init ++ answerPages last).flatMap (fun p => p.Contents)).filter
            (reachesCallback pfx recursive)
      ∧ (forEachObjectLoop (scripted τ) (onUser f) bucket pfx recursive fuel st).1.requests =
          st.requests ++ (st.ct :: init.map nextToken).map (walkRequest bucket pfx)
      ∧ (forEachObjectLoop (scripted τ) (onUser f) bucket pfx recursive fuel st).1.env.answers =
          rest := by
  induction init generalizing st fuel with
  | nil =>
    obtain ⟨n, rfl⟩ : ∃ n, fuel = n + 1 := ⟨fuel - 1, by simp at hfuel; omega⟩
    simp only [List.map_nil, List.nil_append] at henv hok
    rw [forEachObjectLoop]
    simp only [scripted_answers _ _ _ _ henv]
    cases last with
    | error err => simp [answerPages, answerResult]
    | ok p =>
      have hp : p.IsTruncated = false := by simpa [isLast] using hlast
      simp only [answerPages, List.flatMap_cons, List.flatMap_nil, List.append_nil] at hok
      obtain ⟨h1, h2, h3⟩ := walkContents_frame f pfx recursive p.Contents
        { env := { st.env with answers := rest }
          requests := st.requests ++ [walkRequest bucket pfx st.ct]
          visited := st.visited
          dirs := st.dirs
          ct := ToString p.NextContinuationToken }
      obtain ⟨h4, h5, h6⟩ := walkContents_visitsOk f pfx recursive p.Contents
        { env := { st.env with answers := rest }
          requests := st.requests ++ [walkRequest bucket pfx st.ct]
          visited := st.visited
          dirs := st.dirs
          ct := ToString p.NextContinuationToken } u1 hok
      simp only [h4, hp, Bool.not_false, if_true, answerPages, answerResult, List.nil_append,
        List.flatMap_cons, List.flatMap_nil, List.append_nil, List.map_nil, List.map_cons]
      exact ⟨trivial, h5, h2, h1⟩
  | cons p init ih =>
    obtain ⟨n, rfl⟩ : ∃ n, fuel = n + 1 := ⟨fuel - 1, by simp at hfuel; omega⟩
    have hp : p.IsTruncated = true := hinit p (List.mem_cons_self _ _)
    have hrest : ∀ q ∈ init, q.IsTruncated = true :=
      fun q hq => hinit q (List.mem_cons_of_mem _ hq)
    have hn : init.length < n := by simp at hfuel; omega
    simp only [List.map_cons, List.cons_append] at henv
    simp only [List.cons_append, List.flatMap_cons, List.filter_append] at hok
    rw [visitsOk_append] at hok
    cases hu : visitsOk f st.env.user (p.Contents.filter (reachesCallback pfx recursive)) with
    | none => rw [hu] at hok; cases hok
    | some u0 =>
      rw [hu] at hok
      change _ = some u1 at hok
      obtain ⟨st1, hstep, e1, e2, e3, e4, e5⟩ := forEachObjectLoop_turn f bucket pfx recursive p
        (init.map Except.ok ++ last :: rest) n st u0 hp henv hu
      rw [hstep]
      obtain ⟨g1, g2, g3, g4⟩ := ih n hn hrest st1 e1 (by rw [e2]; exact hok)
      refine ⟨g1, ?_, ?_, g4⟩
      · rw [g2, e5]; simp [List.flatMap_cons, List.filter_append]
      · rw [g3, e3, e4]; simp

/-- C16. When the callback, after succeeding on the matching objects of the
truncated pages `init` and on those before `o` in the next page, fails on `o`,
`forEachObject` stops there: the objects handed to the callback are those
matching objects followed by `o` (one more call than successes), no object after
`o` is visited, no request follows the one for the page of `o`, the later
answers stay unasked, and the walk returns the error. -/
theorem forEachObject_stops_at_failing_visit {τ : Type} (f : τ → Object → Option Error × τ)
    (bucket pfx : String) (recursive : Bool)
    (init : List ListObjectsV2Output) (page : ListObjectsV2Output)
    (rest : List (Except Error ListObjectsV2Output)) (user : τ) (fuel : Nat)
    (before after : List Object) (o : Object) (u1 : τ) (err : Error)
    (hfuel : init.length < fuel)
    (hinit : ∀ p ∈ init, p.IsTruncated = true)
    (hpage : page.Contents = before ++ o :: after)
    (hreach : reachesCallback (if pfx = "/" then "" else pfx) recursive o = true)
    (hok : visitsOk f user
      ((init.flatMap (fun p => p.Contents) ++ before).filter
        (reachesCallback (if pfx = "/" then "" else pfx) recursive)) = some u1)
    (hfail : (f u1 o).1 = some err) :
    (forEachObject fuel (scripted τ) ⟨init.map Except.ok ++ Except.ok page :: rest, user⟩
        bucket pfx recursive (onUser f)).visited =
      (init.flatMap (fun p => p.Contents) ++ before).filter
        (reachesCallback (if pfx = "/" then "" else pfx) recursive) ++ [o]
    ∧ (forEachObject fuel (scripted τ) ⟨init.map Except.ok ++ Except.ok page :: rest, user⟩
        bucket pfx recursive (onUser f)).visited.length =
      ((init.flatMap (fun p => p.Contents) ++ before).filter
        (reachesCallback (if pfx = "/" then "" else pfx) recursive)).length + 1
    ∧ (forEachObject fuel (scripted τ) ⟨init.map Except.ok ++ Except.ok page :: rest, user⟩
        bucket pfx recursive (onUser f)).requests.length = init.length + 1
    ∧ (forEachObject fuel (scripted τ) ⟨init.map Except.ok ++ Except.ok page :: rest, user⟩
        bucket pfx recursive (onUser f)).env.answers = rest
    ∧ (forEachObject fuel (scripted τ) ⟨init.map Except.ok ++ Except.ok page :: rest, user⟩
        bucket pfx recursive (onUser f)).result = some (some err) := by
  obtain ⟨h1, h2, h3, h4⟩ := forEachObjectLoop_scripted_fails f bucket
    (if pfx = "/" then "" else pfx) recursive init page rest fuel before after o u1 err hfuel
    hinit hpage hreach hfail
    ({ env := ⟨init.map Except.ok ++ Except.ok page :: rest, user⟩ } : WalkState (Script τ))
    rfl hok
  simp only [List.nil_append] at h2 h3
  have hv : (forEachObject fuel (scripted τ)
      ⟨init.map Except.ok ++ Except.ok page :: rest, user⟩ bucket pfx recursive
      (onUser f)).visited = (init.flatMap (fun p => p.Contents) ++ before).filter
        (reachesCallback (if pfx = "/" then "" else pfx) recursive) ++ [o] := by
    simpa [forEachObject] using h2
  refine ⟨hv, by rw [hv, List.length_append]; rfl, ?_, by simpa [forEachObject] using h4,
    by simpa [forEachObject] using h1⟩
  have hr : (forEachObject fuel (scripted τ)
      ⟨init.map Except.ok ++ Except.ok page :: rest, user⟩ bucket pfx recursive
      (onUser f)).requests = ("" :: init.map nextToken).map
        (walkRequest bucket (if pfx = "/" then "" else pfx)) := by
    simpa [forEachObject] using h3
  rw [hr]; simp

theorem forEachObject_stops_at_failing_visit_witness :
    (forEachObject 4 (scripted Nat)
        ⟨[scenarioPage1].map Except.ok ++ Except.ok fivePage :: [.ok scenarioPage2], 0⟩
        "bucket" "d/" false (onUser (failingOnCall 3 (.raw "boom")))).visited =
      [sampleObject "d/1", sampleObject "d/2"] ++ [sampleObject "d/3"]
    ∧ (forEachObject 4 (scripted Nat)
        ⟨[scenarioPage1].map Except.ok ++ Except.ok fivePage :: [.ok scenarioPage2], 0⟩
        "bucket" "d/" false (onUser (failingOnCall 3 (.raw "boom")))).visited.length = 2 + 1
    ∧ (forEachObject 4 (scripted Nat)
        ⟨[scenarioPage1].map Except.ok ++ Except.ok fivePage :: [.ok scenarioPage2], 0⟩
        "bucket" "d/" false (onUser (failingOnCall 3 (.raw "boom")))).requests.length = 1 + 1
    ∧ (forEachObject 4 (scripted Nat)
        ⟨[scenarioPage1].map Except.ok ++ Except.ok fivePage :: [.ok scenarioPage2], 0⟩
        "bucket" "d/" false (onUser (failingOnCall 3 (.raw "boom")))).env.answers =
      [.ok scenarioPage2]
    ∧ (forEachObject 4 (scripted Nat)
        ⟨[scenarioPage1].map Except.ok ++ Except.ok fivePage :: [.ok scenarioPage2], 0⟩
        "bucket" "d/" false (onUser (failingOnCall 3 (.raw "boom")))).result =
      some (some (.raw "boom")) :=
  forEachObject_stops_at_failing_visit (failingOnCall 3 (.raw "boom")) "bucket" "d/" false
    [scenarioPage1] fivePage [.ok scenarioPage2] 0 4
    [sampleObject "d/1", sampleObject "d/2"] [sampleObject "d/4", sampleObject "d/5"]
    (sampleObject "d/3") 2 (.raw "boom")
    (by decide) (by decide) (by decide) (by decide) (by decide) (by decide)

/-- C17, counterexample. When the callback fails with an error, the walk returns
that very error, which is no wrapper around it, and it returns the same value
when instead the List call fails with that error. -/
theorem forEachObject_visit_error_not_wrapped :
    (forEachObject 4 (scripted Nat) ⟨[.ok fivePage], 0⟩
        "bucket" "d/" false (onUser (failingOnCall 3 (.raw "boom")))).result =
      some (some (.raw "boom"))
    ∧ (∀ msg cause, (forEachObject 4 (scripted Nat) ⟨[.ok fivePage], 0⟩
        "bucket" "d/" false (onUser (failingOnCall 3 (.raw "boom")))).result ≠
      some (some (.wrap msg cause)))
    ∧ (forEachObject 4 (scripted Nat) ⟨[.error (.raw "boom")], 0⟩
        "bucket" "d/" false (onUser (failingOnCall 3 (.raw "boom")))).result =
      (forEachObject 4 (scripted Nat) ⟨[.ok fivePage], 0⟩
        "bucket" "d/" false (onUser (failingOnCall 3 (.raw "boom")))).result := by
  have h : (forEachObject 4 (scripted Nat) ⟨[.ok fivePage], 0⟩
      "bucket" "d/" false (onUser (failingOnCall 3 (.raw "boom")))).result =
      some (some (.raw "boom")) := by decide
  refine ⟨h, ?_, by decide⟩
  intro msg cause hw
  rw [h] at hw
  cases hw

/-- C17, amended. When the callback fails with an error, `forEachObject`
returns that error itself, unchanged and unwrapped; it is the value the walk
returns as well when, after the same pages, the List call fails with that
error. -/
theorem forEachObject_returns_visit_error {τ : Type} (f : τ → Object → Option Error × τ)
    (bucket pfx : String) (recursive : Bool)
    (init : List ListObjectsV2Output) (page : ListObjectsV2Output)
    (rest : List (Except Error ListObjectsV2Output)) (user : τ) (fuel : Nat)
    (before after : List Object) (o : Object) (u1 : τ) (err : Error)
    (hfuel : init.length < fuel)
    (hinit : ∀ p ∈ init, p.IsTruncated = true)
    (hpage : page.Contents = before ++ o :: after)
    (hreach : reachesCallback (if pfx = "/" then "" else pfx) recursive o = true)
    (hok : visitsOk f user
      ((init.flatMap (fun p => p.Contents) ++ before).filter
        (reachesCallback (if pfx = "/" then "" else pfx) recursive)) = some u1)
    (hfail : (f u1 o).1 = some err) :
    (forEachObject fuel (scripted τ) ⟨init.map Except.ok ++ Except.ok page :: rest, user⟩
        bucket pfx recursive (onUser f)).result = some (some err)
    ∧ (forEachObject fuel (scripted τ) ⟨init.map Except.ok ++ Except.error err :: rest, user⟩
        bucket pfx recursive (onUser f)).result = some (some err) := by
  constructor
  · have h := (forEachObjectLoop_scripted_fails f bucket
      (if pfx = "/" then "" else pfx) recursive init page rest fuel before after o u1 err hfuel
      hinit hpage hreach hfail
      ({ env := ⟨init.map Except.ok ++ Except.ok page :: rest, user⟩ } : WalkState (Script τ))
      rfl hok).1
    simpa [forEachObject] using h
  · simp only [List.filter_append] at hok
    rw [visitsOk_append] at hok
    cases hu : visitsOk f user ((init.flatMap (fun p => p.Contents)).filter
        (reachesCallback (if pfx = "/" then "" else pfx) recursive)) with
    | none => rw [hu] at hok; cases hok
    | some u0 =>
      have h := (forEachObjectLoop_scripted_visits f bucket
        (if pfx = "/" then "" else pfx) recursive init (.error err) rest fuel u0 hfuel
        hinit (by simp [isLast])
        ({ env := ⟨init.map Except.ok ++ Except.error err :: rest, user⟩ } :
          WalkState (Script τ))
        rfl (by simpa [answerPages] using hu)).1
      simpa [forEachObject, answerResult] using h

theorem forEachObject_returns_visit_error_witness :
    (forEachObject 4 (scripted Nat)
        ⟨[scenarioPage1].map Except.ok ++ Except.ok fivePage :: [], 0⟩
        "bucket" "d/" false (onUser (failingOnCall 3 (.raw "boom")))).result =
      some (some (.raw "boom"))
    ∧ (forEachObject 4 (scripted Nat)
        ⟨[scenarioPage1].map Except.ok ++ Except.error (.raw "boom") :: [], 0⟩
        "bucket" "d/" false (onUser (failingOnCall 3 (.raw "boom")))).result =
      some (some (.raw "boom")) :=
  forEachObject_returns_visit_error (failingOnCall 3 (.raw "boom")) "bucket" "d/" false
    [scenarioPage1] fivePage [] 0 4
    [sampleObject "d/1", sampleObject "d/2"] [sampleObject "d/4", sampleObject "d/5"]
    (sampleObject "d/3") 2 (.raw "boom")
    (by decide) (by decide) (by decide) (by decide) (by decide) (by decide)

/-! ## `copyObject` -/

/-- C18. `copyObject` returns a copy request exactly when the object fetch and
the ACL fetch both succeed.  When the object fetch fails it returns the error of
the service wrapped as "unable to retrieve object information" and has made no
other call; when the ACL fetch fails after it, it returns that error wrapped as
"unable to retrieve object ACL"; in both cases no request is returned. -/
theorem copyObject_needs_both_fetches {σ : Type} (c : objectClient σ)
    (aclToCopy : GetObjectAclOutput → CopyObjectInput → CopyObjectInput)
    (s : σ) (bucket key : String) :
    ((∃ req, (copyObject c aclToCopy s bucket key).result = .ok req) ↔
      ∃ src acl, (c.GetObject s ⟨some bucket, some key⟩).1 = .ok src
        ∧ (c.GetObjectAcl (c.GetObject s ⟨some bucket, some key⟩).2
            ⟨some bucket, some key⟩).1 = .ok acl)
    ∧ (∀ err, (c.GetObject s ⟨some bucket, some key⟩).1 = .error err →
        (copyObject c aclToCopy s bucket key).result =
            .error (.wrap "unable to retrieve object information" err)
          ∧ (copyObject c aclToCopy s bucket key).calls =
            [.GetObject ⟨some bucket, some key⟩])
    ∧ (∀ src err, (c.GetObject s ⟨some bucket, some key⟩).1 = .ok src →
        (c.GetObjectAcl (c.GetObject s ⟨some bucket, some key⟩).2
            ⟨some bucket, some key⟩).1 = .error err →
        (copyObject c aclToCopy s bucket key).result =
            .error (.wrap "unable to retrieve object ACL" err)
          ∧ (copyObject c aclToCopy s bucket key).calls =
            [.GetObject ⟨some bucket, some key⟩, .GetObjectAcl ⟨some bucket, some key⟩]) := by
  simp only [copyObject, awsString]
  cases h1 : (c.GetObject s ⟨some bucket, some key⟩).1 with
  | error e1 => simp
  | ok src =>
    cases h2 : (c.GetObjectAcl (c.GetObject s ⟨some bucket, some key⟩).2
        ⟨some bucket, some key⟩).1 with
    | error e2 => simp
    | ok acl => simp

theorem copyObject_needs_both_fetches_witness :
    (copyObject aclDenied grantReaders () "bucket" "k").result =
        .error (.wrap "unable to retrieve object ACL" (.raw "access denied"))
      ∧ (copyObject aclDenied grantReaders () "bucket" "k").calls =
        [.GetObject ⟨some "bucket", some "k"⟩, .GetObjectAcl ⟨some "bucket", some "k"⟩] :=
  (copyObject_needs_both_fetches aclDenied grantReaders () "bucket" "k").2.2
    sampleSource (.raw "access denied") rfl rfl

/-- C19. When both fetches succeed, and the helper that applies the ACL leaves
the other fields alone, the request built by `copyObject` is an in-place
replace copy: bucket and key are the given ones, the copy source is bucket,
slash, key, the metadata directive is REPLACE and not COPY, and the metadata and
the six headers are those of the fetched object. -/
theorem copyObject_in_place_replace {σ : Type} (c : objectClient σ)
    (aclToCopy : GetObjectAclOutput → CopyObjectInput → CopyObjectInput)
    (s : σ) (bucket key : String) (src : GetObjectOutput) (acl : GetObjectAclOutput)
    (hsrc : (c.GetObject s ⟨some bucket, some key⟩).1 = .ok src)
    (hacl : (c.GetObjectAcl (c.GetObject s ⟨some bucket, some key⟩).2
        ⟨some bucket, some key⟩).1 = .ok acl)
    (hkeep : keepsCopyFields aclToCopy) :
    ∃ req, (copyObject c aclToCopy s bucket key).result = .ok req
      ∧ req.Bucket = some bucket ∧ req.Key = some key
      ∧ req.CopySource = some (bucket ++ "/" ++ key)
      ∧ req.MetadataDirective = MetadataDirectiveReplace
      ∧ req.MetadataDirective ≠ MetadataDirectiveCopy
      ∧ req.Metadata = src.Metadata
      ∧ req.CacheControl = src.CacheControl
      ∧ req.ContentDisposition = src.ContentDisposition
      ∧ req.ContentEncoding = src.ContentEncoding
      ∧ req.ContentLanguage = src.ContentLanguage
      ∧ req.ContentType = src.ContentType
      ∧ req.Expires = src.Expires := by
  obtain ⟨k1, k2, k3, k4, k5, k6, k7, k8, k9, k10, k11⟩ := hkeep acl
    { Bucket := some bucket
      Key := some key
      CopySource := some (bucket ++ "/" ++ key)
      Metadata := src.Metadata
      MetadataDirective := MetadataDirectiveReplace
      CacheControl := src.CacheControl
      ContentDisposition := src.ContentDisposition
      ContentEncoding := src.ContentEncoding
      ContentLanguage := src.ContentLanguage
      ContentType := src.ContentType
      Expires := src.Expires }
  refine ⟨_, ?_, k1, k2, k3, k5, ?_, k4, k6, k7, k8, k9, k10, k11⟩
  · simp only [copyObject, awsString, hsrc, hacl]
  · rw [k5]; exact (by decide : MetadataDirectiveReplace ≠ MetadataDirectiveCopy)

theorem copyObject_in_place_replace_witness :
    ∃ req, (copyObject sampleObjects grantReaders () "bucket" "dir/k").result = .ok req
      ∧ req.Bucket = some "bucket" ∧ req.Key = some "dir/k"
      ∧ req.CopySource = some ("bucket" ++ "/" ++ "dir/k")
      ∧ req.MetadataDirective = MetadataDirectiveReplace
      ∧ req.MetadataDirective ≠ MetadataDirectiveCopy
      ∧ req.Metadata = sampleSource.Metadata
      ∧ req.CacheControl = sampleSource.CacheControl
      ∧ req.ContentDisposition = sampleSource.ContentDisposition
      ∧ req.ContentEncoding = sampleSource.ContentEncoding
      ∧ req.ContentLanguage = sampleSource.ContentLanguage
      ∧ req.ContentType = sampleSource.ContentType
      ∧ req.Expires = sampleSource.Expires :=
  copyObject_in_place_replace sampleObjects grantReaders () "bucket" "dir/k" sampleSource
    { Grants := [⟨some "alice", "READ"⟩] } rfl rfl
    (fun _ _ => ⟨rfl, rfl, rfl, rfl, rfl, rfl, rfl, rfl, rfl, rfl, rfl⟩)

/-! ## Directories of a flat listing -/

theorem streamLinesFrom_eq_zipWith (earlier ps : List ListObjectsV2Output) :
    streamLinesFrom false earlier ps =
      (List.zipWith (fun d p => d ++ pageKeys p) (streamDirsFrom earlier ps) ps).flatten := by
  induction ps generalizing earlier with
  | nil => simp [streamLinesFrom, streamDirsFrom]
  | cons p ps ih =>
    simp [streamLinesFrom, streamDirsFrom, pageLines, ih]

theorem streamDirsFrom_flatten (earlier ps : List ListObjectsV2Output) :
    (streamDirsFrom earlier ps).flatten =
      newDirs (earlier.flatMap pagePrefixes) (ps.flatMap pagePrefixes) := by
  induction ps generalizing earlier with
  | nil => simp [streamDirsFrom, newDirs_nil]
  | cons p ps ih =>
    simp only [streamDirsFrom, List.flatten_cons, List.flatMap_cons, ih, newDirs_append]
    congr 1
    apply newDirs_congr
    intro d
    simp only [List.flatMap_append, List.flatMap_cons, List.flatMap_nil, List.append_nil,
      List.mem_append, mem_newDirs]
    tauto

theorem streamDirsFrom_within_page (earlier ps : List ListObjectsV2Output) :
    List.Forall₂ (fun d p => ∀ x ∈ d, x ∈ pagePrefixes p) (streamDirsFrom earlier ps) ps := by
  induction ps generalizing earlier with
  | nil => exact List.Forall₂.nil
  | cons p ps ih =>
    exact List.Forall₂.cons (fun x hx => ((mem_newDirs _ _ x).1 hx).1) (ih _)

/-- The first-seen list holds an element right after the distinct elements that
come before its first occurrence. -/
theorem firstSeen_first_occurrence (l r : List String) (x : String) (hx : x ∉ l) :
    ∃ l1 r1, firstSeen (l ++ x :: r) = l1 ++ x :: r1 ∧ ∀ y, y ∈ l1 ↔ y ∈ l := by
  refine ⟨firstSeen l, newDirs (newDirs [] l ++ [x]) r, ?_, fun y => mem_firstSeen y l⟩
  have hx1 : x ∉ [] ++ newDirs [] l := by
    simp [mem_newDirs, hx]
  rw [← newDirs_empty, newDirs_append, newDirs_cons_of_not_mem _ _ _ hx1, newDirs_empty]
  simp

theorem dirPaths_bufferedOutput (ps : List ListObjectsV2Output) :
    dirPaths (bufferedOutput false ps) = firstSeen (ps.flatMap pagePrefixes) := by
  have h1 : ∀ l : List String,
      ((l.map dirRecord).filter (fun r => r.Dir)).map (fun r => r.Path) = l := by
    intro l
    induction l with
    | nil => rfl
    | cons d l ih => simp [dirRecord] at ih ⊢; exact ih
  have h2 : ∀ l : List Object, (l.map objectRecord).filter (fun r => r.Dir) = [] := by
    intro l
    induction l with
    | nil => rfl
    | cons o l ih => simp [objectRecord] at ih ⊢
  simp only [dirPaths, bufferedOutput, Bool.false_eq_true, if_false, List.filter_append,
    List.map_append, h1, h2, List.map_nil, List.append_nil]

/-- C20. In a flat-mode listing the directory prefixes emitted are the distinct
common prefixes of all pages, each once, in first-seen order: in buffered mode
they are the paths of the directory records of the result; in streaming mode
they are written page by page, those of a page ahead of its keys and taken from
its common prefixes.  The list has no duplicates, holds exactly the common
prefixes of the pages, and holds each right after the distinct prefixes that
come before its first occurrence. -/
theorem listObjects_dirs_once_first_seen {τ : Type} (bucket pfx : String)
    (init : List ListObjectsV2Output) (last : ListObjectsV2Output)
    (rest : List (Except Error ListObjectsV2Output)) (user : τ) (fuel : Nat)
    (hfuel : init.length < fuel)
    (hinit : ∀ p ∈ init, p.IsTruncated = true) (hlast : last.IsTruncated = false) :
    ∃ dirs : List String,
      (∃ out, (listObjects fuel (scripted τ)
          ⟨init.map Except.ok ++ Except.ok last :: rest, user⟩ bucket pfx false false).result =
            some (.ok out) ∧ dirPaths out = dirs)
      ∧ (∃ perPage : List (List String),
          List.Forall₂ (fun d p => ∀ x ∈ d, x ∈ pagePrefixes p) perPage (init ++ [last])
          ∧ (listObjects fuel (scripted τ)
              ⟨init.map Except.ok ++ Except.ok last :: rest, user⟩ bucket pfx false true).stdout =
            (List.zipWith (fun d p => d ++ pageKeys p) perPage (init ++ [last])).flatten
          ∧ perPage.flatten = dirs)
      ∧ dirs.Nodup
      ∧ (∀ d, d ∈ dirs ↔ d ∈ (init ++ [last]).flatMap pagePrefixes)
      ∧ (∀ l x r, (init ++ [last]).flatMap pagePrefixes = l ++ x :: r → x ∉ l →
          ∃ l1 r1, dirs = l1 ++ x :: r1 ∧ ∀ y, y ∈ l1 ↔ y ∈ l) := by
  refine ⟨firstSeen ((init ++ [last]).flatMap pagePrefixes), ?_, ?_, firstSeen_nodup _,
    fun d => mem_firstSeen d _, ?_⟩
  · refine ⟨bufferedOutput false (init ++ [last]), ?_, dirPaths_bufferedOutput _⟩
    rw [listObjects_scripted_ok bucket pfx false false init last rest user fuel hfuel hinit hlast]
    simp
  · refine ⟨streamDirsFrom [] (init ++ [last]), streamDirsFrom_within_page _ _, ?_, ?_⟩
    · rw [listObjects_scripted_ok bucket pfx false true init last rest user fuel hfuel hinit
        hlast]
      simp [streamLines, streamLinesFrom_eq_zipWith]
    · rw [streamDirsFrom_flatten]
      simp [newDirs_empty]
  · intro l x r hsplit hx
    rw [hsplit]
    exact firstSeen_first_occurrence l r x hx

theorem listObjects_dirs_once_first_seen_witness :
    ∃ dirs : List String,
      (∃ out, (listObjects 3 (scripted Unit)
          ⟨[groupedPage, scenarioPage1].map Except.ok ++ Except.ok scenarioPage2 :: [], ()⟩
          "bucket" "" false false).result = some (.ok out) ∧ dirPaths out = dirs)
      ∧ (∃ perPage : List (List String),
          List.Forall₂ (fun d p => ∀ x ∈ d, x ∈ pagePrefixes p) perPage
            ([groupedPage, scenarioPage1] ++ [scenarioPage2])
          ∧ (listObjects 3 (scripted Unit)
              ⟨[groupedPage, scenarioPage1].map Except.ok ++ Except.ok scenarioPage2 :: [], ()⟩
              "bucket" "" false true).stdout =
            (List.zipWith (fun d p => d ++ pageKeys p) perPage
              ([groupedPage, scenarioPage1] ++ [scenarioPage2])).flatten
          ∧ perPage.flatten = dirs)
      ∧ dirs.Nodup
      ∧ (∀ d, d ∈ dirs ↔ d ∈ ([groupedPage, scenarioPage1] ++ [scenarioPage2]).flatMap pagePrefixes)
      ∧ (∀ l x r, ([groupedPage, scenarioPage1] ++ [scenarioPage2]).flatMap pagePrefixes = l ++ x :: r →
          x ∉ l → ∃ l1 r1, dirs = l1 ++ x :: r1 ∧ ∀ y, y ∈ l1 ↔ y ∈ l) :=
  listObjects_dirs_once_first_seen "bucket" "" [groupedPage, scenarioPage1] scenarioPage2 [] () 3
    (by decide) (by decide) (by decide)


/-! ## Object keys of a listing -/

theorem objectPaths_bufferedOutput (recursive : Bool) (ps : List ListObjectsV2Output) :
    objectPaths (bufferedOutput recursive ps) = ps.flatMap pageKeys := by
  have h1 : ∀ l : List String, (l.map dirRecord).filter (fun r => !r.Dir) = [] := by
    intro l
    induction l with
    | nil => rfl
    | cons d l ih => simp [dirRecord] at ih ⊢
  have h2 : ∀ l : List Object,
      ((l.map objectRecord).filter (fun r => !r.Dir)).map (fun r => r.Path) =
        l.map (fun o => ToString o.Key) := by
    intro l
    induction l with
    | nil => rfl
    | cons o l ih => simp [objectRecord] at ih ⊢; exact ih
  have h3 : (ps.flatMap (fun p => p.Contents)).map (fun o => ToString o.Key) =
      ps.flatMap pageKeys := by
    induction ps with
    | nil => rfl
    | cons p ps ih => simp [List.flatMap_cons, pageKeys, ih]
  cases recursive <;>
    simp only [objectPaths, bufferedOutput, Bool.false_eq_true, if_false, if_true,
      List.filter_append, List.map_append, h1, h2, h3, List.map_nil, List.nil_append,
      List.filter_nil]

theorem streamLinesFrom_recursive (earlier ps : List ListObjectsV2Output) :
    streamLinesFrom true earlier ps = ps.flatMap pageKeys := by
  induction ps generalizing earlier with
  | nil => simp [streamLinesFrom]
  | cons p ps ih => simp [streamLinesFrom, pageLines, ih]

/-- C21, counterexample. Answered by two pages that both hold the key `c`,
`listObjects` emits `c` twice: the object paths of the buffered result and the
lines streamed in recursive mode are `c`, `c`, which is not duplicate-free. -/
theorem listObjects_repeats_repeated_key :
    (listObjects 3 (scripted Unit) ⟨[.ok repeatedKeyPage, .ok scenarioPage2], ()⟩
        "bucket" "" false false).result =
      some (.ok [objectRecord (sampleObject "c"), objectRecord (sampleObject "c")])
    ∧ objectPaths [objectRecord (sampleObject "c"), objectRecord (sampleObject "c")] = ["c", "c"]
    ∧ (listObjects 3 (scripted Unit) ⟨[.ok repeatedKeyPage, .ok scenarioPage2], ()⟩
        "bucket" "" true true).stdout = ["c", "c"]
    ∧ ¬ (["c", "c"] : List String).Nodup := by
  decide

/-- C21, amended. The object keys a listing emits are exactly the keys of the
Contents entries of the pages, one per entry, in page order and then in-page
order: they are the object paths of the buffered result, the lines streamed in
recursive mode, and in flat streaming mode the lines of each page that follow
its directory lines.  So they are the same set as the entries of the pages, and
they are duplicate-free exactly when those entries are. -/
theorem listObjects_emits_every_key {τ : Type} (bucket pfx : String) (recursive : Bool)
    (init : List ListObjectsV2Output) (last : ListObjectsV2Output)
    (rest : List (Except Error ListObjectsV2Output)) (user : τ) (fuel : Nat)
    (hfuel : init.length < fuel)
    (hinit : ∀ p ∈ init, p.IsTruncated = true) (hlast : last.IsTruncated = false) :
    (∃ out, (listObjects fuel (scripted τ)
        ⟨init.map Except.ok ++ Except.ok last :: rest, user⟩ bucket pfx recursive false).result =
          some (.ok out)
        ∧ objectPaths out = (init ++ [last]).flatMap pageKeys
        ∧ (∀ k, k ∈ objectPaths out ↔ ∃ p ∈ init ++ [last], k ∈ pageKeys p)
        ∧ ((objectPaths out).Nodup ↔ ((init ++ [last]).flatMap pageKeys).Nodup))
    ∧ (listObjects fuel (scripted τ)
        ⟨init.map Except.ok ++ Except.ok last :: rest, user⟩ bucket pfx true true).stdout =
          (init ++ [last]).flatMap pageKeys
    ∧ (∃ perPage : List (List String),
        List.Forall₂ (fun d p => ∀ x ∈ d, x ∈ pagePrefixes p) perPage (init ++ [last])
        ∧ (listObjects fuel (scripted τ)
            ⟨init.map Except.ok ++ Except.ok last :: rest, user⟩ bucket pfx false true).stdout =
          (List.zipWith (fun d p => d ++ pageKeys p) perPage (init ++ [last])).flatten) := by
  refine ⟨⟨bufferedOutput recursive (init ++ [last]), ?_, objectPaths_bufferedOutput _ _, ?_, ?_⟩,
    ?_, ?_⟩
  · rw [listObjects_scripted_ok bucket pfx recursive false init last rest user fuel hfuel hinit
      hlast]
    simp
  · intro k
    rw [objectPaths_bufferedOutput, List.mem_flatMap]
  · rw [objectPaths_bufferedOutput]
  · rw [listObjects_scripted_ok bucket pfx true true init last rest user fuel hfuel hinit hlast]
    simp [streamLines, streamLinesFrom_recursive]
  · refine ⟨streamDirsFrom [] (init ++ [last]), streamDirsFrom_within_page _ _, ?_⟩
    rw [listObjects_scripted_ok bucket pfx false true init last rest user fuel hfuel hinit hlast]
    simp [streamLines, streamLinesFrom_eq_zipWith]

theorem listObjects_emits_every_key_witness :
    (∃ out, (listObjects 2 (scripted Unit)
        ⟨[repeatedKeyPage].map Except.ok ++ Except.ok scenarioPage2 :: [], ()⟩
        "bucket" "" false false).result = some (.ok out)
        ∧ objectPaths out = ([repeatedKeyPage] ++ [scenarioPage2]).flatMap pageKeys
        ∧ (∀ k, k ∈ objectPaths out ↔ ∃ p ∈ [repeatedKeyPage] ++ [scenarioPage2], k ∈ pageKeys p)
        ∧ ((objectPaths out).Nodup ↔
            (([repeatedKeyPage] ++ [scenarioPage2]).flatMap pageKeys).Nodup))
    ∧ (listObjects 2 (scripted Unit)
        ⟨[repeatedKeyPage].map Except.ok ++ Except.ok scenarioPage2 :: [], ()⟩
        "bucket" "" true true).stdout = ([repeatedKeyPage] ++ [scenarioPage2]).flatMap pageKeys
    ∧ (∃ perPage : List (List String),
        List.Forall₂ (fun d p => ∀ x ∈ d, x ∈ pagePrefixes p) perPage
          ([repeatedKeyPage] ++ [scenarioPage2])
        ∧ (listObjects 2 (scripted Unit)
            ⟨[repeatedKeyPage].map Except.ok ++ Except.ok scenarioPage2 :: [], ()⟩
            "bucket" "" false true).stdout =
          (List.zipWith (fun d p => d ++ pageKeys p) perPage
            ([repeatedKeyPage] ++ [scenarioPage2])).flatten) :=
  listObjects_emits_every_key "bucket" "" false [repeatedKeyPage] scenarioPage2 [] () 2
    (by decide) (by decide) (by decide)

/-! ## A non-recursive walk of the bucket root -/

/-- C22. Whatever the service, the bucket and the callback, a non-recursive
`forEachObject` at the bucket root, be it given as `""` or as `"/"`, hands the
callback no object with a non-empty key. -/
theorem forEachObject_root_visits_no_named_object {σ : Type} (c : storageClient σ)
    (fn : σ → Object → Option Error × σ) (bucket : String) (fuel : Nat) (s : σ) :
    (∀ o ∈ (forEachObject fuel c s bucket "" false fn).visited, ToString o.Key = "")
    ∧ (∀ o ∈ (forEachObject fuel c s bucket "/" false fn).visited, ToString o.Key = "") := by
  have key : ∀ o ∈ (forEachObjectLoop c fn bucket "" false fuel { env := s }).1.visited,
      ToString o.Key = "" := by
    intro o ho
    rcases forEachObjectLoop_visited_mem c fn bucket "" false fuel { env := s } o ho with h | h
    · simp at h
    · rw [reachesCallback_exact "" o (by decide)] at h
      simpa using h
  constructor
  · intro o ho
    exact key o (by simpa [forEachObject] using ho)
  · intro o ho
    exact key o (by simpa [forEachObject] using ho)

theorem forEachObject_root_visits_no_named_object_witness :
    sampleObject "readme" ∉ (forEachObject 3 (scripted Nat) ⟨[.ok rootPage], 0⟩
        "bucket" "" false (onUser countingVisit)).visited
    ∧ sampleObject "a/x" ∉ (forEachObject 3 (scripted Nat) ⟨[.ok rootPage], 0⟩
        "bucket" "/" false (onUser countingVisit)).visited :=
  ⟨fun h => absurd ((forEachObject_root_visits_no_named_object (scripted Nat)
      (onUser countingVisit) "bucket" 3 ⟨[.ok rootPage], 0⟩).1 _ h) (by decide),
   fun h => absurd ((forEachObject_root_visits_no_named_object (scripted Nat)
      (onUser countingVisit) "bucket" 3 ⟨[.ok rootPage], 0⟩).2 _ h) (by decide)⟩

/-! ## `dbaasMigrationStopCmd` -/

theorem stopMigrationFuncs_unsupported {σ : Type} (svc : dbaasService σ) (dbType : String)
    (h1 : dbType ≠ "mysql") (h2 : dbType ≠ "pg") (h3 : dbType ≠ "redis") :
    stopMigrationFuncs svc dbType = none := by
  simp [stopMigrationFuncs, h1, h2, h3]

/-- For a database type without an entry in `stopMigrationFuncs`, `cmdRun`
goes on to the status lookup: it returns what that lookup fails with, or, when
the lookup succeeds, calls the nil function; no stop call is made. -/
theorem cmdRun_unsupported {σ : Type} (svc : dbaasService σ) (s : σ) (Name Zone dbType : String)
    (h1 : dbType ≠ "mysql") (h2 : dbType ≠ "pg") (h3 : dbType ≠ "redis")
    (htype : (svc.dbaasGetType s Name Zone).1 = .ok dbType) :
    (cmdRun svc s Name Zone).calls = [.GetType Name Zone, .GetStatus Zone Name]
    ∧ (∀ err, (svc.GetDatabaseMigrationStatus (svc.dbaasGetType s Name Zone).2 Zone Name).1 =
          .error err →
        (cmdRun svc s Name Zone).outcome =
          if svc.isNotFound err then
            .returned (some (.raw ("migration for database " ++ svc.Quote Name
              ++ " not running in zone " ++ svc.Quote Zone)))
          else .returned (some (.raw ("failed to retrieve migration status: " ++ err.text))))
    ∧ ((svc.GetDatabaseMigrationStatus (svc.dbaasGetType s Name Zone).2 Zone Name).1 = .ok () →
        (cmdRun svc s Name Zone).outcome = .nilFunctionCall) := by
  have hnone := stopMigrationFuncs_unsupported svc dbType h1 h2 h3
  simp only [cmdRun, htype, hnone, reassign]
  cases hst : (svc.GetDatabaseMigrationStatus (svc.dbaasGetType s Name Zone).2 Zone Name).1 with
  | error e => simp
  | ok u => simp

/-- C23. Evaluation of `cmdRun` for a database of type `kafka`: when the status
lookup fails with `timeout` the command returns "failed to retrieve migration
status: timeout", and when the lookup succeeds it calls the nil entry of
`stopMigrationFuncs`; in neither case does it return "migrations not supported
for database type", the error it has built at line 54. -/
theorem cmdRun_unsupported_type_error_lost :
    (cmdRun (sampleDbaas "kafka" (.error (.raw "timeout"))) () "db" "ch-gva-2").outcome =
      .returned (some (.raw "failed to retrieve migration status: timeout"))
    ∧ (cmdRun (sampleDbaas "kafka" (.ok ())) () "db" "ch-gva-2").outcome = .nilFunctionCall
    ∧ (cmdRun (sampleDbaas "kafka" (.error (.raw "timeout"))) () "db" "ch-gva-2").outcome ≠
      .returned (some (.raw ("migrations not supported for database type " ++
        (sampleDbaas "kafka" (.ok ())).Quote "kafka")))
    ∧ (cmdRun (sampleDbaas "kafka" (.ok ())) () "db" "ch-gva-2").outcome ≠
      .returned (some (.raw ("migrations not supported for database type " ++
        (sampleDbaas "kafka" (.ok ())).Quote "kafka")))
    ∧ (cmdRun (sampleDbaas "pg" (.ok ())) () "db" "ch-gva-2").calls =
      [.GetType "db" "ch-gva-2", .GetStatus "ch-gva-2" "db", .Stop "pg" "ch-gva-2" "db"] := by
  decide

end Cli
